import Mathlib

/-!
Verification of the agent lifecycle orchestration scripts
(`portfolio_assistant_agent.py` and `supervisor_joke_agents.py`).

The scripts drive a remote control plane through the helper class
`AgentsForAmazonBedrock` (module `src.utils.bedrock_agent_helper`, not part of
the sources under verification) and through raw `boto3` clients.  We embed the
scripts as trace-producing programs over an abstract stateful client
interface `Client σ`: every remote call is recorded as an event and returns
either a value or an error, threading an opaque control-plane state `σ`.
The call sequencing, branching, and exception handling of the Python
scripts are translated directly; the remote side is kept abstract (and, for
scenario-style claims, instantiated with a fake control plane modelled from
the specification).
-/

/-! ### Python string primitives

The scripts use `str.lower`, `str.strip`, `str.startswith`, slicing and the
`in` substring test.  We model Python strings by Lean `String` and these
operations character-wise, which agrees with Python on the ASCII strings the
scripts manipulate. -/

/-- Character-level prefix test (`needle` is a prefix of `hay`). -/
def isPre : List Char → List Char → Bool
  | [], _ => true
  | _ :: _, [] => false
  | c :: cs, d :: ds => if c = d then isPre cs ds else false

/-- Character-level substring test, modelling Python's `needle in hay`. -/
def containsSub : List Char → List Char → Bool
  | n, [] => n.isEmpty
  | n, c :: t => isPre n (c :: t) || containsSub n t

/-- Python `s.lower()` (character-wise). -/
def pyLower (s : String) : String := ⟨s.data.map Char.toLower⟩

/-- Python `s.strip()`: remove leading and trailing whitespace. -/
def pyStrip (s : String) : String :=
  ⟨((s.data.dropWhile Char.isWhitespace).reverse.dropWhile Char.isWhitespace).reverse⟩

/-- Python `s[n:]`: drop the first `n` characters. -/
def pyDrop (s : String) (n : Nat) : String := ⟨s.data.drop n⟩

/-- Python `s.startswith(pre)`. -/
def pyStartsWith (s pre : String) : Bool := isPre pre.data s.data

/-- The naming convention used by `cleanup_agents`: an agent name tags a
supervisor iff `'portfolio' in name.lower()`. -/
def isSupName (n : String) : Bool := containsSub "portfolio".data (pyLower n).data

/-- The interactive loops terminate on `prompt.strip().lower() in {'exit', 'quit'}`. -/
def isExitPrompt (p : String) : Bool :=
  pyLower (pyStrip p) = "exit" || pyLower (pyStrip p) = "quit"

/-! ### Remote calls as events -/

/-- One remote call issued by the scripts.  Payloads record the arguments the
scripts pass (and, for `list_agent_aliases`, the reported result, since later
calls consume it); descriptions, instructions and model lists do not influence
any claim and are not recorded. -/
inductive Ev where
  | getId (name : String)
  | updateDisable (agentId : String)
  | waitA (agentId : String)
  | listAliases (agentId : String) (result : Option (List String))
  | deleteAlias (agentId aliasId : String)
  | deleteAgent (agentId : String)
  | listGuardrails
  | deleteGuardrail (guardrailId : String)
  | getLambda (name : String)
  | createAgent (name collab : String)
  | prepareA (name : String)
  | createAlias (agentId aliasName : String)
  | associate (agentId : String) (aliasArns : List String)
  | invoke (agentId aliasId inputText : String)
deriving DecidableEq

/-- One entry of the `sub_agent_list` passed to `associate_sub_agents`. -/
structure SubAgentSpec where
  subAgentAliasArn : String
  subAgentInstruction : String
  subAgentAssociationName : String
  relayConversationHistory : String
deriving DecidableEq

/-- The remote control-plane interface consumed by the scripts: the methods of
`AgentsForAmazonBedrock` and the raw `bedrock-agent` / `bedrock` / `lambda`
client calls they stand next to.  Each operation transforms an opaque remote
state `σ` and either returns a value or raises (modelled as `Except.error`). -/
structure Client (σ : Type) where
  getAgentIdByName : String → σ → Except String (Option String) × σ
  updateAgentDisable : String → σ → Except String Unit × σ
  waitAgentStatusUpdate : String → σ → Except String Unit × σ
  listAgentAliases : String → σ → Except String (List String) × σ
  deleteAgentAlias : String → String → σ → Except String Unit × σ
  deleteAgent : String → σ → Except String Unit × σ
  listGuardrails : σ → Except String (List (String × String)) × σ
  deleteGuardrail : String → σ → Except String Unit × σ
  createAgent : String → String → String → List String → String →
      σ → Except String (String × String × String) × σ
  prepareAgent : String → σ → Except String Unit × σ
  createAgentAlias : String → String → σ → Except String (String × String) × σ
  associateSubAgents : String → List SubAgentSpec → σ → Except String Unit × σ
  invokeAgent : String → String → String → σ → Except String String × σ
  lambdaArn : String → σ → Except String String × σ

/-! ### The trace monad

A program fragment is a function from the remote state to a result
(`Except`, propagating Python exceptions), the list of remote calls issued,
and the final remote state. -/

def M (σ : Type) (α : Type) := σ → Except String α × List Ev × σ

instance : Monad (M σ) where
  pure a := fun s => (.ok a, [], s)
  bind x f := fun s =>
    match x s with
    | (.ok a, t, s') => match f a s' with | (r, t', s'') => (r, t ++ t', s'')
    | (.error e, t, s') => (.error e, t, s')

theorem M.bind_apply (x : M σ α) (f : α → M σ β) (s : σ) :
    (x >>= f) s =
      match x s with
      | (.ok a, t, s') => match f a s' with | (r, t', s'') => (r, t ++ t', s'')
      | (.error e, t, s') => (.error e, t, s') := rfl

theorem M.pure_apply (a : α) (s : σ) : (pure a : M σ α) s = (.ok a, [], s) := rfl

/-- Issue one remote call: record the event, return the operation's result. -/
def opCall (e : Ev) (op : σ → Except String α × σ) : M σ α := fun s =>
  match op s with
  | (r, s') => (r, [e], s')

/-- Issue `list_agent_aliases`, recording the reported alias ids in the event. -/
def opListAliases (c : Client σ) (agentId : String) : M σ (List String) := fun s =>
  match c.listAgentAliases agentId s with
  | (r, s') => (r, [Ev.listAliases agentId r.toOption], s')

/-- A Python `try: ... except: pass` block: errors of the body are swallowed. -/
def attempt (x : M σ α) : M σ Unit := fun s =>
  match x s with
  | (_, t, s') => (.ok (), t, s')

/-! ### Teardown workflow (`cleanup_agents`) -/

/-- Phase 1 body of `cleanup_agents` for one supervisor-tagged name:
look the agent up, and if found update it to `agentCollaboration="DISABLED"`
and wait for the status to settle.  Both the lookup and the update/wait pair
sit in `try/except` blocks, so no failure escapes. -/
def disassocOne (c : Client σ) (n : String) : M σ Unit :=
  attempt (do
    let oid ← opCall (.getId n) (c.getAgentIdByName n)
    match oid with
    | none => pure ()
    | some id => attempt (do
        opCall (.updateDisable id) (c.updateAgentDisable id)
        opCall (.waitA id) (c.waitAgentStatusUpdate id)))

/-- The alias-deletion loop of `cleanup_agents`: each `delete_agent_alias`
call has its own `try/except`, so every listed alias is attempted. -/
def deleteAliasLoop (c : Client σ) (id : String) : List String → M σ Unit
  | [] => pure ()
  | al :: rest => do
      attempt (opCall (.deleteAlias id al) (c.deleteAgentAlias id al))
      deleteAliasLoop c id rest

/-- Phase 2/3 body of `cleanup_agents` for one name: look the agent up,
list its aliases, delete every alias, then delete the agent.  A failing
lookup or listing aborts only this name's block (outer `try`); alias and
agent deletions are individually protected. -/
def deleteOne (c : Client σ) (n : String) : M σ Unit :=
  attempt (do
    let oid ← opCall (.getId n) (c.getAgentIdByName n)
    match oid with
    | none => pure ()
    | some id => do
        let als ← opListAliases c id
        deleteAliasLoop c id als
        attempt (opCall (.deleteAgent id) (c.deleteAgent id)))

/-- The guardrail scan of `cleanup_agents`: delete every guardrail named
`no_bitcoin_guardrail`.  A failing deletion aborts the scan (single
surrounding `try`), but is still swallowed. -/
def guardrailLoop (c : Client σ) : List (String × String) → M σ Unit
  | [] => pure ()
  | (gname, gid) :: rest =>
      if gname = "no_bitcoin_guardrail" then do
        opCall (.deleteGuardrail gid) (c.deleteGuardrail gid)
        guardrailLoop c rest
      else guardrailLoop c rest

/-- Final step of `cleanup_agents`: list guardrails and delete the matching
one, everything inside one `try/except`. -/
def guardrailStep (c : Client σ) : M σ Unit :=
  attempt (do
    let gs ← opCall .listGuardrails c.listGuardrails
    guardrailLoop c gs)

/-- One `for name in agent_names:` pass. -/
def phaseLoop (step : String → M σ Unit) : List String → M σ Unit
  | [] => pure ()
  | n :: rest => do
      step n
      phaseLoop step rest

/-- `cleanup_agents(agents, agent_names)`: disassociate collaborators from
supervisor-tagged agents, delete supervisor-tagged agents (aliases first),
delete the remaining agents (aliases first), then clean up the guardrail. -/
def cleanupAgents (c : Client σ) (names : List String) : M σ Unit := do
  phaseLoop (fun n => if isSupName n then disassocOne c n else pure ()) names
  phaseLoop (fun n => if isSupName n then deleteOne c n else pure ()) names
  phaseLoop (fun n => if isSupName n then pure () else deleteOne c n) names
  guardrailStep c

/-- The `agent_names` list of `portfolio_assistant_agent.main`. -/
def agentNames : List String :=
  ["portfolio_assistant", "news_agent", "stock_data_agent", "analyst_agent"]

/-! ### Provision workflow (`portfolio_assistant_agent.main`, recreate branch) -/

/-- The script-level `create_agent` helper: create the agent (without
preparing it) and wait for its status to settle. -/
def createAgentW (c : Client σ) (name description instructions : String)
    (models : List String) (collab : String) : M σ (String × String × String) := do
  let r ← opCall (.createAgent name collab) (c.createAgent name description instructions models collab)
  opCall (.waitA r.1) (c.waitAgentStatusUpdate r.1)
  pure r

/-- `get_lambda_arn`: look the function up; on any failure fall back to the
constructed ARN.  Never raises. -/
def getLambdaArn (c : Client σ) (name region account : String) : M σ String := fun s =>
  match c.lambdaArn name s with
  | (.ok arn, s') => (.ok arn, [Ev.getLambda name], s')
  | (.error _, s') =>
      (.ok ("arn:aws:lambda:" ++ region ++ ":" ++ account ++ ":function:" ++ name),
       [Ev.getLambda name], s')

def foundationModels : List String :=
  ["anthropic.claude-3-sonnet-20240229-v1:0", "anthropic.claude-3-haiku-20240307-v1:0"]

def newsInstructions : String :=
  "Top researcher in financial markets and company announcements."

def stockDataInstructions : String :=
  "Specialist in real-time financial data extraction."

def analystInstructions : String :=
  "Analyze stock trends and market news to generate insights. " ++
  "Experienced analyst providing strategic recommendations. " ++
  "You take as input the news summary and stock price summary."

def portfolioInstructions : String :=
  "Act as a seasoned expert at analyzing a potential stock investment for a given " ++
  "stock ticker. Do your research to understand how the stock price has been moving " ++
  "lately, as well as recent news on the stock. Give back a well written and " ++
  "carefully considered report with considerations for a potential investor. " ++
  "You use your analyst collaborator to perform the final analysis, and you give " ++
  "the news and stock data to the analyst as input. Use your collaborators in sequence, not in parallel."

/-! ### The provision workflow over a declared hierarchy

`provisionPortfolio` is the straight-line instance of the provision pattern
for the script's three declared leaf agents.  For the specification's
two-leaf scenario we also state the same pattern generically over an ordered
list of leaf specifications. -/

/-- One declared leaf agent: name, description, instructions, alias name and
the routing instruction carried by its collaboration link. -/
structure LeafSpec where
  name : String
  description : String
  instructions : String
  aliasName : String
  routingInstruction : String
deriving DecidableEq

/-- The declared supervisor. -/
structure SupSpec where
  name : String
  description : String
  instructions : String
deriving DecidableEq

/-- Provision one leaf agent: create, wait, prepare, wait, create alias.
Returns the alias ARN. -/
def provisionLeaf (c : Client σ) (models : List String) (l : LeafSpec) : M σ String := do
  let (lid, _, _) ← createAgentW c l.name l.description l.instructions models "DISABLED"
  opCall (.prepareA l.name) (c.prepareAgent l.name)
  opCall (.waitA lid) (c.waitAgentStatusUpdate lid)
  let (_, aliasArn) ← opCall (.createAlias lid l.aliasName) (c.createAgentAlias lid l.aliasName)
  pure aliasArn

/-- Provision every declared leaf in order, collecting the alias ARNs. -/
def provisionLeaves (c : Client σ) (models : List String) :
    List LeafSpec → M σ (List (LeafSpec × String))
  | [] => pure []
  | l :: rest => do
      let arn ← provisionLeaf c models l
      let others ← provisionLeaves c models rest
      pure ((l, arn) :: others)

/-- The provision workflow over a declared hierarchy: all leaves fully
provisioned, then the supervisor created with `SUPERVISOR` collaboration,
one collaboration link attached per leaf, a status wait, then the
supervisor's prepare and a final wait. -/
def provisionHierarchy (c : Client σ) (models : List String)
    (leaves : List LeafSpec) (sup : SupSpec) : M σ String := do
  let provisioned ← provisionLeaves c models leaves
  let (supId, _, _) ← createAgentW c sup.name sup.description sup.instructions models "SUPERVISOR"
  let subAgentList := provisioned.map
    (fun p => SubAgentSpec.mk p.2 p.1.routingInstruction p.1.name "DISABLED")
  opCall (.associate supId (subAgentList.map (·.subAgentAliasArn)))
    (c.associateSubAgents supId subAgentList)
  opCall (.waitA supId) (c.waitAgentStatusUpdate supId)
  opCall (.prepareA sup.name) (c.prepareAgent sup.name)
  opCall (.waitA supId) (c.waitAgentStatusUpdate supId)
  pure supId

/-- The three leaf agents declared by `portfolio_assistant_agent.main`, in
creation order, and its supervisor. -/
def newsLeaf : LeafSpec :=
  ⟨"news_agent", "Market News Researcher", newsInstructions, "news-alias",
   "Use this collaborator for finding news about specific stocks."⟩

def stockDataLeaf : LeafSpec :=
  ⟨"stock_data_agent", "Financial Data Collector", stockDataInstructions, "stock-data-alias",
   "Use this collaborator for finding price history for specific stocks."⟩

def analystLeaf : LeafSpec :=
  ⟨"analyst_agent", "Financial Analyst", analystInstructions, "analyst-alias",
   "Use this collaborator for taking the raw research and writing a detailed report and investment considerations."⟩

def portfolioSup : SupSpec :=
  ⟨"portfolio_assistant", "Portfolio Assistant Agent", portfolioInstructions⟩

/-- The provisioning sequence of `main` (`--recreate_agents true`), after the
teardown call: resolve the Lambda ARNs, then run the provision pattern over
the declared hierarchy.  The script's body is straight-line; it repeats the
identical five-call leaf pattern (create, wait, prepare, wait, alias) for the
news, stock-data and analyst agents and then creates the supervisor with
`SUPERVISOR` collaboration, associates the three collaborators (one link per
leaf, relay disabled), waits, prepares the supervisor and waits — i.e. it is
exactly the hierarchy instance at the three declared leaf specs.  Returns the
supervisor's agent id. -/
def provisionPortfolio (c : Client σ) (region account : String) : M σ String := do
  let _webSearchArn ← getLambdaArn c "web_search" region account
  let _stockDataArn ← getLambdaArn c "stock_data_lookup" region account
  provisionHierarchy c foundationModels [newsLeaf, stockDataLeaf, analystLeaf] portfolioSup

/-! ### Process entry point (`portfolio_assistant_agent.main`) -/

/-- The CLI arguments that influence control flow (`--ticker` feeds the
automated prompt; `--trace_level` has no orchestration effect and is
omitted).  The string choices `'true'/'false'` are modelled as `Bool`. -/
structure Args where
  recreateAgents : Bool
  cleanUp : Bool
  ticker : String
deriving DecidableEq

/-- How the process run ends: `sys.exit(code)`, a normal return from `main`,
or an uncaught Python exception. -/
inductive Outcome where
  | exited (code : Nat)
  | completed
  | raised (msg : String)
deriving DecidableEq

/-- The automated analysis prompt built from the ticker. -/
def buildPrompt (ticker : String) : String :=
  "Analyze the stock " ++ ticker ++
  ". Look up recent news and stock price data, then provide a detailed analysis and investment considerations."

/-- The interactive loop of the portfolio script: read lines until
end-of-input (`sys.exit(0)`) or an exit token (break, normal return); every
other prompt is sent to the resolved supervisor under alias `TSTALIASID`.
An invocation error is uncaught and aborts the process. -/
def interactiveLoopP (c : Client σ) (pid : String) :
    List String → σ → Outcome × List Ev × σ
  | [], s => (.exited 0, [], s)
  | p :: rest, s =>
      if isExitPrompt p then (.completed, [], s)
      else
        match c.invokeAgent pid "TSTALIASID" p s with
        | (.error e, s') => (.raised e, [.invoke pid "TSTALIASID" p], s')
        | (.ok _, s') =>
            match interactiveLoopP c pid rest s' with
            | (o, t, s'') => (o, .invoke pid "TSTALIASID" p :: t, s'')

/-- `portfolio_assistant_agent.main`.  `--clean_up true` runs teardown and
exits 0.  `--recreate_agents true` runs teardown then provisioning and
returns (no invocation).  Otherwise the supervisor is resolved by name
(absent resolves to `sys.exit(1)`), the automated prompt is invoked under
alias `TSTALIASID`, and the interactive loop runs.  `region`/`account` stand
for the ambient AWS session configuration. -/
def mainPortfolio (c : Client σ) (args : Args) (inputs : List String)
    (region account : String) (s : σ) : Outcome × List Ev × σ :=
  if args.cleanUp then
    match cleanupAgents c agentNames s with
    | (_, t, s') => (.exited 0, t, s')
  else if args.recreateAgents then
    match cleanupAgents c agentNames s with
    | (_, t1, s1) =>
        match provisionPortfolio c region account s1 with
        | (.error e, t2, s2) => (.raised e, t1 ++ t2, s2)
        | (.ok _, t2, s2) => (.completed, t1 ++ t2, s2)
  else
    match c.getAgentIdByName "portfolio_assistant" s with
    | (.error e, s') => (.raised e, [.getId "portfolio_assistant"], s')
    | (.ok none, s') => (.exited 1, [.getId "portfolio_assistant"], s')
    | (.ok (some pid), s') =>
        match c.invokeAgent pid "TSTALIASID" (buildPrompt args.ticker) s' with
        | (.error e, s'') =>
            (.raised e,
             [.getId "portfolio_assistant", .invoke pid "TSTALIASID" (buildPrompt args.ticker)],
             s'')
        | (.ok _, s'') =>
            match interactiveLoopP c pid inputs s'' with
            | (o, t2, s3) =>
                (o,
                 .getId "portfolio_assistant" ::
                   .invoke pid "TSTALIASID" (buildPrompt args.ticker) :: t2,
                 s3)

/-! ### Joke script (`supervisor_joke_agents.py`) -/

def jokeFoundationModels : List String :=
  ["anthropic.claude-3-sonnet-20240229-v1:0", "anthropic.claude-3-5-sonnet-20240620-v1:0",
   "anthropic.claude-3-haiku-20240307-v1:0"]

def jokeInstructions : String :=
  "You are a playful AI that tells jokes. " ++
  "On each user query, respond with a single, funny joke related to the prompt."

def jokeSupervisorInstructions : String :=
  "You are a supervisor agent that handles requests from users. " ++
  "Your job is to forward all requests to the joke agent and relay the responses back to the user. " ++
  "Do not modify the responses from the joke agent. Simply relay exactly what the joke agent responds with."

/-- Steps 1-7 of `supervisor_joke_agents.main`: provision the joke leaf agent
(create, wait, prepare, wait, alias), create the supervisor (unprepared
beyond the creation wait), associate the single collaborator, wait, prepare
the supervisor, wait.  Returns (joke id, joke draft alias id, supervisor id,
supervisor draft alias id). -/
def provisionJoke (c : Client σ) : M σ (String × String × String × String) := do
  let (jokeAgentId, jokeAgentAliasId, _) ←
    createAgentW c "joke_agent_1" "Interactive Joke-telling Agent" jokeInstructions
      jokeFoundationModels "DISABLED"
  opCall (.prepareA "joke_agent_1") (c.prepareAgent "joke_agent_1")
  opCall (.waitA jokeAgentId) (c.waitAgentStatusUpdate jokeAgentId)
  let (_, jokeAliasArn) ←
    opCall (.createAlias jokeAgentId "joke-alias") (c.createAgentAlias jokeAgentId "joke-alias")
  let (supervisorAgentId, supervisorAgentAliasId, _) ←
    createAgentW c "joke_supervisor_agent_1"
      "Supervisor agent that coordinates with the joke agent" jokeSupervisorInstructions
      jokeFoundationModels "SUPERVISOR"
  let subAgentList : List SubAgentSpec :=
    [⟨jokeAliasArn, "You are a joke agent. Generate funny jokes based on user prompts.",
      "joke_agent_1", "DISABLED"⟩]
  opCall (.associate supervisorAgentId (subAgentList.map (·.subAgentAliasArn)))
    (c.associateSubAgents supervisorAgentId subAgentList)
  opCall (.waitA supervisorAgentId) (c.waitAgentStatusUpdate supervisorAgentId)
  opCall (.prepareA "joke_supervisor_agent_1") (c.prepareAgent "joke_supervisor_agent_1")
  opCall (.waitA supervisorAgentId) (c.waitAgentStatusUpdate supervisorAgentId)
  pure (jokeAgentId, jokeAgentAliasId, supervisorAgentId, supervisorAgentAliasId)

/-- The joke script's interactive loop: prompts whose lowercase form starts
with `supervisor:` go to the supervisor with the prefix sliced off and the
remainder stripped; every other non-exit prompt goes unchanged to the joke
agent.  An invocation error is uncaught. -/
def jokeLoop (c : Client σ) (supId supAliasId jokeId jokeAliasId : String) :
    List String → σ → Outcome × List Ev × σ
  | [], s => (.exited 0, [], s)
  | p :: rest, s =>
      if isExitPrompt p then (.completed, [], s)
      else
        match
          (if pyStartsWith (pyLower p) "supervisor:" then
            (supId, supAliasId, pyStrip (pyDrop p "supervisor:".length))
          else (jokeId, jokeAliasId, p)) with
        | (aid, alid, txt) =>
            match c.invokeAgent aid alid txt s with
            | (.error e, s') => (.raised e, [.invoke aid alid txt], s')
            | (.ok _, s') =>
                match jokeLoop c supId supAliasId jokeId jokeAliasId rest s' with
                | (o, t, s'') => (o, .invoke aid alid txt :: t, s'')

/-- `supervisor_joke_agents.main`: `--recreate_agents` other than `true`
exits 1; otherwise provision the two agents and run the routing loop. -/
def mainJoke (c : Client σ) (recreateAgents : Bool) (inputs : List String) (s : σ) :
    Outcome × List Ev × σ :=
  if !recreateAgents then (.exited 1, [], s)
  else
    match provisionJoke c s with
    | (.error e, t, s') => (.raised e, t, s')
    | (.ok (jid, jalid, sid, salid), t, s') =>
        match jokeLoop c sid salid jid jalid inputs s' with
        | (o, t2, s'') => (o, t ++ t2, s'')

/-! ### A fake control plane

Modelled from the spec: the remote agent-hosting service keeps named agents
with lifecycle statuses, aliases and collaboration links; mutating calls
leave a resource in a transitional state and the status poller
(`wait_agent_status_update`, whose implementation lives outside the sources
under verification) blocks until the resource reaches a terminal status.
This fake transitions every awaited resource to `PREPARED` on its first
poll, as in the specification's provisioning scenario. -/

/-- One remotely-hosted agent of the fake control plane. -/
structure AgentRec where
  aid : String
  aname : String
  status : String
  collabMode : String
  aliases : List String
  collaborators : List String
deriving DecidableEq

/-- The fake control plane's state. -/
structure CPState where
  agents : List AgentRec
  guardrails : List (String × String)
  nextId : Nat
deriving DecidableEq

def emptyCP : CPState := ⟨[], [], 0⟩

def findByName (s : CPState) (n : String) : Option AgentRec :=
  s.agents.find? (fun a => a.aname = n)

def findById (s : CPState) (i : String) : Option AgentRec :=
  s.agents.find? (fun a => a.aid = i)

def updAgentRec (s : CPState) (i : String) (f : AgentRec → AgentRec) : CPState :=
  { s with agents := s.agents.map (fun a => if a.aid = i then f a else a) }

/-- Modelled from the spec: `find_agent_id(name)`, exact-name lookup with
`absent` as a non-error result. -/
def cpGetAgentIdByName (n : String) (s : CPState) : Except String (Option String) × CPState :=
  (.ok ((findByName s n).map (·.aid)), s)

/-- Modelled from the spec: `update_agent(..., agentCollaboration="DISABLED")`
disassociates all collaboration links of the agent. -/
def cpUpdateAgentDisable (i : String) (s : CPState) : Except String Unit × CPState :=
  match findById s i with
  | none => (.error "agent not found", s)
  | some _ =>
      (.ok (), updAgentRec s i (fun a =>
        { a with collabMode := "DISABLED", collaborators := [], status := "UPDATING" }))

/-- Modelled from the spec: the status poller; this fake reaches the terminal
status `PREPARED` after one poll. -/
def cpWait (i : String) (s : CPState) : Except String Unit × CPState :=
  (.ok (), updAgentRec s i (fun a => { a with status := "PREPARED" }))

def cpListAgentAliases (i : String) (s : CPState) : Except String (List String) × CPState :=
  (.ok ((findById s i).elim [] (·.aliases)), s)

def cpDeleteAgentAlias (i al : String) (s : CPState) : Except String Unit × CPState :=
  (.ok (), updAgentRec s i (fun a => { a with aliases := a.aliases.erase al }))

/-- Modelled from the spec: deleting an agent that still owns aliases or
active collaboration links is rejected by the service. -/
def cpDeleteAgent (i : String) (s : CPState) : Except String Unit × CPState :=
  match findById s i with
  | none => (.error "agent not found", s)
  | some a =>
      if a.aliases ≠ [] then (.error "deletion rejected: agent still owns aliases", s)
      else if a.collaborators ≠ [] then
        (.error "deletion rejected: agent still has collaboration links", s)
      else (.ok (), { s with agents := s.agents.filter (fun b => ¬(b.aid = i)) })

def cpListGuardrails (s : CPState) : Except String (List (String × String)) × CPState :=
  (.ok s.guardrails, s)

def cpDeleteGuardrail (g : String) (s : CPState) : Except String Unit × CPState :=
  (.ok (), { s with guardrails := s.guardrails.filter (fun p => ¬(p.2 = g)) })

/-- Modelled from the spec: `create_agent` registers a fresh agent (status
`CREATING`, no aliases, no links) and returns its id plus the draft alias. -/
def cpCreateAgent (n _d _instr : String) (_models : List String) (collab : String)
    (s : CPState) : Except String (String × String × String) × CPState :=
  let idStr := "AGENT" ++ toString s.nextId
  (.ok (idStr, "TSTALIASID", idStr ++ "-draft-arn"),
   { s with agents := s.agents ++ [⟨idStr, n, "CREATING", collab, [], []⟩],
            nextId := s.nextId + 1 })

def cpPrepareAgent (n : String) (s : CPState) : Except String Unit × CPState :=
  match findByName s n with
  | none => (.error "agent not found", s)
  | some a => (.ok (), updAgentRec s a.aid (fun b => { b with status := "PREPARING" }))

def cpCreateAgentAlias (i aliasName : String) (s : CPState) :
    Except String (String × String) × CPState :=
  match findById s i with
  | none => (.error "agent not found", s)
  | some _ =>
      let alid := "ALIAS" ++ toString s.nextId
      (.ok (alid, alid ++ "-arn-" ++ aliasName),
       { updAgentRec s i (fun a => { a with aliases := a.aliases ++ [alid] }) with
         nextId := s.nextId + 1 })

def cpAssociateSubAgents (i : String) (specs : List SubAgentSpec) (s : CPState) :
    Except String Unit × CPState :=
  match findById s i with
  | none => (.error "agent not found", s)
  | some _ =>
      (.ok (), updAgentRec s i (fun a =>
        { a with collaborators := specs.map (·.subAgentAliasArn), status := "UPDATING" }))

def cpInvokeAgent (_aid _alid _txt : String) (s : CPState) : Except String String × CPState :=
  (.ok "fake response", s)

def cpLambdaArn (n : String) (s : CPState) : Except String String × CPState :=
  (.ok ("arn:aws:lambda:fake:function:" ++ n), s)

/-- The fake control plane packaged as a `Client`. -/
def modelClient : Client CPState :=
  ⟨cpGetAgentIdByName, cpUpdateAgentDisable, cpWait, cpListAgentAliases,
   cpDeleteAgentAlias, cpDeleteAgent, cpListGuardrails, cpDeleteGuardrail,
   cpCreateAgent, cpPrepareAgent, cpCreateAgentAlias, cpAssociateSubAgents,
   cpInvokeAgent, cpLambdaArn⟩

/-! ### Pure clients

A client whose responses depend only on the call's arguments — "a pattern of
per-resource outcomes".  This is the adversarial environment for the
teardown claims. -/

structure PureClient where
  getAgentIdByName : String → Except String (Option String)
  updateAgentDisable : String → Except String Unit
  waitAgentStatusUpdate : String → Except String Unit
  listAgentAliases : String → Except String (List String)
  deleteAgentAlias : String → String → Except String Unit
  deleteAgent : String → Except String Unit
  listGuardrails : Except String (List (String × String))
  deleteGuardrail : String → Except String Unit
  createAgent : String → String → String → List String → String →
      Except String (String × String × String)
  prepareAgent : String → Except String Unit
  createAgentAlias : String → String → Except String (String × String)
  associateSubAgents : String → List SubAgentSpec → Except String Unit
  invokeAgent : String → String → String → Except String String
  lambdaArn : String → Except String String

def PureClient.toClient (pc : PureClient) : Client Unit :=
  ⟨fun n s => (pc.getAgentIdByName n, s), fun i s => (pc.updateAgentDisable i, s),
   fun i s => (pc.waitAgentStatusUpdate i, s), fun i s => (pc.listAgentAliases i, s),
   fun i al s => (pc.deleteAgentAlias i al, s), fun i s => (pc.deleteAgent i, s),
   fun s => (pc.listGuardrails, s), fun g s => (pc.deleteGuardrail g, s),
   fun n d instr ms cb s => (pc.createAgent n d instr ms cb, s),
   fun n s => (pc.prepareAgent n, s), fun i an s => (pc.createAgentAlias i an, s),
   fun i sp s => (pc.associateSubAgents i sp, s),
   fun a al txt s => (pc.invokeAgent a al txt, s), fun n s => (pc.lambdaArn n, s)⟩

/-- A pure client on which every operation succeeds. -/
def okPure : PureClient :=
  ⟨fun n => .ok (some ("ID-" ++ n)), fun _ => .ok (), fun _ => .ok (),
   fun _ => .ok ["AL1", "AL2"], fun _ _ => .ok (), fun _ => .ok (),
   .ok [("no_bitcoin_guardrail", "GR1")], fun _ => .ok (),
   fun n _ _ _ _ => .ok ("ID-" ++ n, "TSTALIASID", "ARN-" ++ n),
   fun _ => .ok (), fun _ an => .ok ("ALIAS-" ++ an, "ALIASARN-" ++ an),
   fun _ _ => .ok (), fun _ _ _ => .ok "fake answer", fun n => .ok ("LARN-" ++ n)⟩

/-- A pure client presenting an empty control plane: every name lookup is
absent and there are no guardrails. -/
def absentPure : PureClient :=
  ⟨fun _ => .ok none, fun _ => .ok (), fun _ => .ok (),
   fun _ => .ok [], fun _ _ => .ok (), fun _ => .ok (),
   .ok [], fun _ => .ok (),
   fun n _ _ _ _ => .ok ("ID-" ++ n, "TSTALIASID", "ARN-" ++ n),
   fun _ => .ok (), fun _ an => .ok ("ALIAS-" ++ an, "ALIASARN-" ++ an),
   fun _ _ => .ok (), fun _ _ _ => .ok "fake answer", fun n => .ok ("LARN-" ++ n)⟩

/-- A pure client with a mixed pattern of per-resource failures, used to
witness the best-effort teardown claims. -/
def failSomePure : PureClient :=
  ⟨fun n => if n = "news_agent" then .error "lookup down"
            else if n = "analyst_agent" then .ok none
            else .ok (some ("ID-" ++ n)),
   fun _ => .error "update denied", fun _ => .error "wait timeout",
   fun i => if i = "ID-stock_data_agent" then .error "listing down" else .ok ["A1", "A2"],
   fun _ _ => .error "alias delete denied", fun _ => .error "agent delete denied",
   .ok [("other_guardrail", "G0"), ("no_bitcoin_guardrail", "G1")],
   fun _ => .error "guardrail delete denied",
   fun n _ _ _ _ => .ok ("ID-" ++ n, "TSTALIASID", "ARN-" ++ n),
   fun _ => .ok (), fun _ an => .ok ("ALIAS-" ++ an, "ALIASARN-" ++ an),
   fun _ _ => .ok (), fun _ _ _ => .ok "fake answer", fun n => .ok ("LARN-" ++ n)⟩

/-- A pure client on which the supervisor's disassociation update is denied
while everything else succeeds; the agent owns no aliases. -/
def denyUpdatePure : PureClient :=
  ⟨fun n => if n = "portfolio_assistant" then .ok (some "P1") else .ok none,
   fun _ => .error "update denied", fun _ => .ok (),
   fun _ => .ok [], fun _ _ => .ok (), fun _ => .ok (),
   .ok [], fun _ => .ok (),
   fun n _ _ _ _ => .ok ("ID-" ++ n, "TSTALIASID", "ARN-" ++ n),
   fun _ => .ok (), fun _ an => .ok ("ALIAS-" ++ an, "ALIASARN-" ++ an),
   fun _ _ => .ok (), fun _ _ _ => .ok "fake answer", fun n => .ok ("LARN-" ++ n)⟩

/-! ### Trace observations -/

/-- Trace of a teardown run. -/
def cleanupTrace (c : Client σ) (names : List String) (s : σ) : List Ev :=
  (cleanupAgents c names s).2.1

/-- Trace of a portfolio provision run. -/
def provTraceP (c : Client σ) (region account : String) (s : σ) : List Ev :=
  (provisionPortfolio c region account s).2.1

/-- Trace of a joke-script provision run. -/
def provTraceJ (c : Client σ) (s : σ) : List Ev :=
  (provisionJoke c s).2.1

/-- Greedy subsequence test: the given events occur in the trace, in order
(not necessarily adjacent). -/
def isSubseq : List Ev → List Ev → Bool
  | [], _ => true
  | _ :: _, [] => false
  | e :: es, x :: xs => if x = e then isSubseq es xs else isSubseq (e :: es) xs

/-- Every occurrence of `e` in the trace comes strictly after the first
occurrence of `tgt` (vacuously true when `e` never occurs). -/
def noneBefore (e tgt : Ev) : List Ev → Bool
  | [] => true
  | x :: t => if x = tgt then true else if x = e then false else noneBefore e tgt t

/-- Events that mutate remote state (creation, preparation, aliasing,
association, update, deletion, invocation); lookups, listings and status
polls are reads. -/
def isMutatingEv : Ev → Bool
  | .getId _ => false
  | .waitA _ => false
  | .listAliases _ _ => false
  | .listGuardrails => false
  | .getLambda _ => false
  | _ => true

def isInvokeEv : Ev → Bool
  | .invoke _ _ _ => true
  | _ => false

def isDeleteEv : Ev → Bool
  | .deleteAlias _ _ => true
  | .deleteAgent _ => true
  | .deleteGuardrail _ => true
  | _ => false

def isCreateAliasEv : Ev → Bool
  | .createAlias _ _ => true
  | _ => false

def isSupCreateEv : Ev → Bool
  | .createAgent _ collab => collab = "SUPERVISOR"
  | _ => false

/-- Number of collaboration links attached by the trace (the total size of
all `associate_sub_agents` payloads). -/
def linkCount (t : List Ev) : Nat :=
  (t.map (fun e => match e with | .associate _ arns => arns.length | _ => 0)).sum

/-- The created-awaited-prepared-awaited-aliased block that must precede the
supervisor's creation, for one leaf agent. -/
def leafChain (name aliasName id : String) : List Ev :=
  [.createAgent name "DISABLED", .waitA id, .prepareA name, .waitA id, .createAlias id aliasName]

/-- The supervisor part of a successful portfolio provision run. -/
def supChainTail (pid narn sarn aarn : String) : List Ev :=
  [.createAgent "portfolio_assistant" "SUPERVISOR", .waitA pid,
   .associate pid [narn, sarn, aarn], .waitA pid, .prepareA "portfolio_assistant", .waitA pid]

/-- The full event sequence of a successful portfolio provision run, in terms
of the ids returned by the control plane. -/
def fullTraceP (nid sid aid pid narn sarn aarn : String) : List Ev :=
  [.getLambda "web_search", .getLambda "stock_data_lookup"] ++
  (leafChain "news_agent" "news-alias" nid ++
  (leafChain "stock_data_agent" "stock-data-alias" sid ++
  (leafChain "analyst_agent" "analyst-alias" aid ++ supChainTail pid narn sarn aarn)))

/-- The full event sequence of a successful joke-script provision run. -/
def fullTraceJ (jid sid jarn : String) : List Ev :=
  [.createAgent "joke_agent_1" "DISABLED", .waitA jid, .prepareA "joke_agent_1", .waitA jid,
   .createAlias jid "joke-alias",
   .createAgent "joke_supervisor_agent_1" "SUPERVISOR", .waitA sid,
   .associate sid [jarn], .waitA sid, .prepareA "joke_supervisor_agent_1", .waitA sid]


/-! ### Teardown traces over a pure client -/

/-- Events issued by phase 1 of `cleanup_agents` for one supervisor name,
against a pure client. -/
def disassocTrace (pc : PureClient) (n : String) : List Ev :=
  Ev.getId n ::
    match pc.getAgentIdByName n with
    | .error _ => []
    | .ok none => []
    | .ok (some id) =>
        Ev.updateDisable id ::
          match pc.updateAgentDisable id with
          | .error _ => []
          | .ok _ => [Ev.waitA id]

/-- Events issued by a phase 2/3 block of `cleanup_agents` for one name,
against a pure client. -/
def deleteOneTrace (pc : PureClient) (n : String) : List Ev :=
  Ev.getId n ::
    match pc.getAgentIdByName n with
    | .error _ => []
    | .ok none => []
    | .ok (some id) =>
        Ev.listAliases id (pc.listAgentAliases id).toOption ::
          match pc.listAgentAliases id with
          | .error _ => []
          | .ok as => as.map (Ev.deleteAlias id) ++ [Ev.deleteAgent id]

/-- Events issued by the guardrail scan, against a pure client. -/
def guardrailScanTrace (pc : PureClient) : List (String × String) → List Ev
  | [] => []
  | (gname, gid) :: rest =>
      if gname = "no_bitcoin_guardrail" then
        Ev.deleteGuardrail gid ::
          match pc.deleteGuardrail gid with
          | .error _ => []
          | .ok _ => guardrailScanTrace pc rest
      else guardrailScanTrace pc rest

/-- Events issued by the final guardrail step, against a pure client. -/
def guardrailTrace (pc : PureClient) : List Ev :=
  Ev.listGuardrails ::
    match pc.listGuardrails with
    | .error _ => []
    | .ok gs => guardrailScanTrace pc gs

/-- The whole teardown trace against a pure client. -/
def cleanupTracePure (pc : PureClient) (names : List String) : List Ev :=
  names.flatMap (fun n => if isSupName n then disassocTrace pc n else []) ++
  (names.flatMap (fun n => if isSupName n then deleteOneTrace pc n else []) ++
  (names.flatMap (fun n => if isSupName n then [] else deleteOneTrace pc n) ++
  guardrailTrace pc))

/-- The invocation the joke-script loop performs for one non-exit prompt. -/
def routeJoke (supId supAliasId jokeId jokeAliasId : String) (p : String) : Ev :=
  if pyStartsWith (pyLower p) "supervisor:" then
    .invoke supId supAliasId (pyStrip (pyDrop p "supervisor:".length))
  else .invoke jokeId jokeAliasId p

/-! ### Run lemmas for the basic combinators -/

theorem opCall_apply (e : Ev) (op : σ → Except String α × σ) (s : σ) :
    opCall e op s = ((op s).1, [e], (op s).2) := by
  unfold opCall
  rcases h : op s with ⟨r, s2⟩
  rfl

theorem opListAliases_apply (c : Client σ) (id : String) (s : σ) :
    opListAliases c id s =
      ((c.listAgentAliases id s).1,
       [Ev.listAliases id (c.listAgentAliases id s).1.toOption],
       (c.listAgentAliases id s).2) := by
  unfold opListAliases
  rcases h : c.listAgentAliases id s with ⟨r, s2⟩
  rfl

theorem getLambdaArn_run (c : Client σ) (n region account : String) (s : σ) :
    ∃ v s', getLambdaArn c n region account s = (.ok v, [Ev.getLambda n], s') := by
  unfold getLambdaArn
  rcases hL : c.lambdaArn n s with ⟨rl, s1⟩
  rcases rl with el | arn
  · exact ⟨_, s1, rfl⟩
  · exact ⟨arn, s1, rfl⟩

/-- Running one leaf-provision block yields either its full five-event chain
(on success, returning the alias ARN) or a strict prefix of it (on failure). -/
theorem provisionLeaf_run (c : Client σ) (models : List String) (l : LeafSpec) (s : σ) :
    ∃ lid arn s',
      provisionLeaf c models l s = (.ok arn, leafChain l.name l.aliasName lid, s') ∨
      ∃ e k, k ≤ 5 ∧
        provisionLeaf c models l s = (.error e, (leafChain l.name l.aliasName lid).take k, s') := by
  unfold provisionLeaf createAgentW
  simp only [M.bind_apply, M.pure_apply, opCall_apply]
  rcases h1 : c.createAgent l.name l.description l.instructions models "DISABLED" s with ⟨r1, s1⟩
  rcases r1 with e1 | ⟨lid, alid0, larn0⟩
  · exact ⟨"", "", s1, .inr ⟨e1, 1, by omega, rfl⟩⟩
  dsimp only []
  rcases h2 : c.waitAgentStatusUpdate lid s1 with ⟨r2, s2⟩
  rcases r2 with e2 | u2
  · exact ⟨lid, "", s2, .inr ⟨e2, 2, by omega, rfl⟩⟩
  dsimp only []
  rcases h3 : c.prepareAgent l.name s2 with ⟨r3, s3⟩
  rcases r3 with e3 | u3
  · exact ⟨lid, "", s3, .inr ⟨e3, 3, by omega, rfl⟩⟩
  dsimp only []
  rcases h4 : c.waitAgentStatusUpdate lid s3 with ⟨r4, s4⟩
  rcases r4 with e4 | u4
  · exact ⟨lid, "", s4, .inr ⟨e4, 4, by omega, rfl⟩⟩
  dsimp only []
  rcases h5 : c.createAgentAlias lid l.aliasName s4 with ⟨r5, s5⟩
  rcases r5 with e5 | ⟨alid, arn⟩
  · exact ⟨lid, "", s5, .inr ⟨e5, 5, by omega, rfl⟩⟩
  exact ⟨lid, arn, s5, .inl rfl⟩

theorem provisionLeaf_run_news (c : Client σ) (s : σ) :
    ∃ lid arn s',
      provisionLeaf c foundationModels newsLeaf s =
        (.ok arn, leafChain "news_agent" "news-alias" lid, s') ∨
      ∃ e k, k ≤ 5 ∧ provisionLeaf c foundationModels newsLeaf s =
        (.error e, (leafChain "news_agent" "news-alias" lid).take k, s') := by
  obtain ⟨lid, arn, s', h⟩ := provisionLeaf_run c foundationModels newsLeaf s
  exact ⟨lid, arn, s', h⟩

theorem provisionLeaf_run_stock (c : Client σ) (s : σ) :
    ∃ lid arn s',
      provisionLeaf c foundationModels stockDataLeaf s =
        (.ok arn, leafChain "stock_data_agent" "stock-data-alias" lid, s') ∨
      ∃ e k, k ≤ 5 ∧ provisionLeaf c foundationModels stockDataLeaf s =
        (.error e, (leafChain "stock_data_agent" "stock-data-alias" lid).take k, s') := by
  obtain ⟨lid, arn, s', h⟩ := provisionLeaf_run c foundationModels stockDataLeaf s
  exact ⟨lid, arn, s', h⟩

theorem provisionLeaf_run_analyst (c : Client σ) (s : σ) :
    ∃ lid arn s',
      provisionLeaf c foundationModels analystLeaf s =
        (.ok arn, leafChain "analyst_agent" "analyst-alias" lid, s') ∨
      ∃ e k, k ≤ 5 ∧ provisionLeaf c foundationModels analystLeaf s =
        (.error e, (leafChain "analyst_agent" "analyst-alias" lid).take k, s') := by
  obtain ⟨lid, arn, s', h⟩ := provisionLeaf_run c foundationModels analystLeaf s
  exact ⟨lid, arn, s', h⟩

/-- Every portfolio provision trace is a prefix of the full success sequence
(for the ids and ARNs the control plane returned). -/
theorem provisionPortfolio_char (c : Client σ) (region account : String) (s : σ) :
    ∃ nid sid aid pid narn sarn aarn n,
      provTraceP c region account s = (fullTraceP nid sid aid pid narn sarn aarn).take n := by
  unfold provTraceP provisionPortfolio provisionHierarchy createAgentW
  obtain ⟨w1, sA, hw1⟩ := getLambdaArn_run c "web_search" region account s
  simp only [M.bind_apply, M.pure_apply, provisionLeaves, opCall_apply, hw1]
  obtain ⟨w2, sB, hw2⟩ := getLambdaArn_run c "stock_data_lookup" region account sA
  simp only [hw2]
  try dsimp only []
  obtain ⟨nid, narn, sC, hN⟩ := provisionLeaf_run_news c sB
  rcases hN with hN | ⟨eN, kN, hkN, hN⟩
  swap
  · simp only [hN]
    refine ⟨nid, "", "", "", "", "", "", kN + 2, ?_⟩
    conv_rhs =>
      rw [fullTraceP, Nat.add_comm kN 2, show (2 : Nat) =
        ([Ev.getLambda "web_search", Ev.getLambda "stock_data_lookup"]).length from rfl,
        List.take_append kN,
        List.take_append_of_le_length (show kN ≤ _ by simpa [leafChain] using hkN)]
    rfl
  simp only [hN]
  try dsimp only []
  obtain ⟨sid, sarn, sD, hS⟩ := provisionLeaf_run_stock c sC
  rcases hS with hS | ⟨eS, kS, hkS, hS⟩
  swap
  · simp only [hS]
    refine ⟨nid, sid, "", "", narn, "", "", kS + 7, ?_⟩
    conv_rhs =>
      rw [fullTraceP, ← List.append_assoc, Nat.add_comm kS 7, show (7 : Nat) =
        (([Ev.getLambda "web_search", Ev.getLambda "stock_data_lookup"] ++
          leafChain "news_agent" "news-alias" nid).length) from rfl,
        List.take_append kS,
        List.take_append_of_le_length (show kS ≤ _ by simpa [leafChain] using hkS)]
    rfl
  simp only [hS]
  try dsimp only []
  obtain ⟨aid, aarn, sE, hA⟩ := provisionLeaf_run_analyst c sD
  rcases hA with hA | ⟨eA, kA, hkA, hA⟩
  swap
  · simp only [hA]
    refine ⟨nid, sid, aid, "", narn, sarn, "", kA + 12, ?_⟩
    conv_rhs =>
      rw [fullTraceP, ← List.append_assoc, ← List.append_assoc, Nat.add_comm kA 12,
        show (12 : Nat) =
        ((([Ev.getLambda "web_search", Ev.getLambda "stock_data_lookup"] ++
          leafChain "news_agent" "news-alias" nid) ++
          leafChain "stock_data_agent" "stock-data-alias" sid).length) from rfl,
        List.take_append kA,
        List.take_append_of_le_length (show kA ≤ _ by simpa [leafChain] using hkA)]
    rfl
  simp only [hA]
  simp only [newsLeaf, stockDataLeaf, analystLeaf, portfolioSup, List.map_cons, List.map_nil]
  try dsimp only []
  rcases h16 : c.createAgent "portfolio_assistant" "Portfolio Assistant Agent"
      portfolioInstructions foundationModels "SUPERVISOR" sE with ⟨r16, s16⟩
  rcases r16 with e16 | ⟨pid, palid0, parn0⟩
  · exact ⟨nid, sid, aid, "", narn, sarn, aarn, 18, rfl⟩
  try dsimp only []
  rcases h17 : c.waitAgentStatusUpdate pid s16 with ⟨r17, s17⟩
  rcases r17 with e17 | u17
  · exact ⟨nid, sid, aid, pid, narn, sarn, aarn, 19, rfl⟩
  try dsimp only []
  rcases h18 : c.associateSubAgents pid
      [⟨narn, "Use this collaborator for finding news about specific stocks.",
        "news_agent", "DISABLED"⟩,
       ⟨sarn, "Use this collaborator for finding price history for specific stocks.",
        "stock_data_agent", "DISABLED"⟩,
       ⟨aarn,
        "Use this collaborator for taking the raw research and writing a detailed report and investment considerations.",
        "analyst_agent", "DISABLED"⟩] s17 with ⟨r18, s18⟩
  rcases r18 with e18 | u18
  · exact ⟨nid, sid, aid, pid, narn, sarn, aarn, 20, rfl⟩
  try dsimp only []
  rcases h19 : c.waitAgentStatusUpdate pid s18 with ⟨r19, s19⟩
  rcases r19 with e19 | u19
  · exact ⟨nid, sid, aid, pid, narn, sarn, aarn, 21, rfl⟩
  try dsimp only []
  rcases h20 : c.prepareAgent "portfolio_assistant" s19 with ⟨r20, s20⟩
  rcases r20 with e20 | u20
  · exact ⟨nid, sid, aid, pid, narn, sarn, aarn, 22, rfl⟩
  try dsimp only []
  rcases h21 : c.waitAgentStatusUpdate pid s20 with ⟨r21, s21⟩
  rcases r21 with e21 | u21
  · exact ⟨nid, sid, aid, pid, narn, sarn, aarn, 23, rfl⟩
  exact ⟨nid, sid, aid, pid, narn, sarn, aarn, 23, rfl⟩

/-- Every joke-script provision trace is a prefix of the full success
sequence. -/
theorem provisionJoke_char (c : Client σ) (s : σ) :
    ∃ jid sid jarn n, provTraceJ c s = (fullTraceJ jid sid jarn).take n := by
  unfold provTraceJ provisionJoke createAgentW
  simp only [M.bind_apply, M.pure_apply, opCall_apply]
  rcases h1 : c.createAgent "joke_agent_1" "Interactive Joke-telling Agent" jokeInstructions
      jokeFoundationModels "DISABLED" s with ⟨r1, s1⟩
  rcases r1 with e1 | ⟨jid, jalid, jarn0⟩
  · exact ⟨"", "", "", 1, rfl⟩
  dsimp only []
  rcases h2 : c.waitAgentStatusUpdate jid s1 with ⟨r2, s2⟩
  rcases r2 with e2 | u2
  · exact ⟨jid, "", "", 2, rfl⟩
  dsimp only []
  rcases h3 : c.prepareAgent "joke_agent_1" s2 with ⟨r3, s3⟩
  rcases r3 with e3 | u3
  · exact ⟨jid, "", "", 3, rfl⟩
  dsimp only []
  rcases h4 : c.waitAgentStatusUpdate jid s3 with ⟨r4, s4⟩
  rcases r4 with e4 | u4
  · exact ⟨jid, "", "", 4, rfl⟩
  dsimp only []
  rcases h5 : c.createAgentAlias jid "joke-alias" s4 with ⟨r5, s5⟩
  rcases r5 with e5 | ⟨jalid2, jarn⟩
  · exact ⟨jid, "", "", 5, rfl⟩
  dsimp only []
  rcases h6 : c.createAgent "joke_supervisor_agent_1"
      "Supervisor agent that coordinates with the joke agent" jokeSupervisorInstructions
      jokeFoundationModels "SUPERVISOR" s5 with ⟨r6, s6⟩
  rcases r6 with e6 | ⟨sid, salid, sarn0⟩
  · exact ⟨jid, "", jarn, 6, rfl⟩
  dsimp only []
  rcases h7 : c.waitAgentStatusUpdate sid s6 with ⟨r7, s7⟩
  rcases r7 with e7 | u7
  · exact ⟨jid, sid, jarn, 7, rfl⟩
  dsimp only []
  rcases h8 : c.associateSubAgents sid
      [⟨jarn, "You are a joke agent. Generate funny jokes based on user prompts.",
        "joke_agent_1", "DISABLED"⟩] s7 with ⟨r8, s8⟩
  rcases r8 with e8 | u8
  · exact ⟨jid, sid, jarn, 8, rfl⟩
  dsimp only []
  rcases h9 : c.waitAgentStatusUpdate sid s8 with ⟨r9, s9⟩
  rcases r9 with e9 | u9
  · exact ⟨jid, sid, jarn, 9, rfl⟩
  dsimp only []
  rcases h10 : c.prepareAgent "joke_supervisor_agent_1" s9 with ⟨r10, s10⟩
  rcases r10 with e10 | u10
  · exact ⟨jid, sid, jarn, 10, rfl⟩
  dsimp only []
  rcases h11 : c.waitAgentStatusUpdate sid s10 with ⟨r11, s11⟩
  rcases r11 with e11 | u11
  · exact ⟨jid, sid, jarn, 11, rfl⟩
  exact ⟨jid, sid, jarn, 11, rfl⟩

theorem fullTraceP_length (nid sid aid pid narn sarn aarn : String) :
    (fullTraceP nid sid aid pid narn sarn aarn).length = 23 := rfl

theorem fullTraceJ_length (jid sid jarn : String) :
    (fullTraceJ jid sid jarn).length = 11 := rfl

theorem provisionOrderP (σ : Type) (c : Client σ) (region account : String) (s : σ)
    (j : Nat) (hj : j < (provTraceP c region account s).length) :
    ((provTraceP c region account s).get ⟨j, hj⟩ =
        Ev.createAgent "portfolio_assistant" "SUPERVISOR" →
      ∃ nid sid aid,
        isSubseq (leafChain "news_agent" "news-alias" nid)
          ((provTraceP c region account s).take j) = true ∧
        isSubseq (leafChain "stock_data_agent" "stock-data-alias" sid)
          ((provTraceP c region account s).take j) = true ∧
        isSubseq (leafChain "analyst_agent" "analyst-alias" aid)
          ((provTraceP c region account s).take j) = true) ∧
    ((provTraceP c region account s).get ⟨j, hj⟩ = Ev.prepareA "portfolio_assistant" →
      Ev.createAgent "portfolio_assistant" "SUPERVISOR" ∈
          (provTraceP c region account s).take j ∧
      ∃ pid arns i k, ∃ (hi : i < (provTraceP c region account s).length)
          (hk : k < (provTraceP c region account s).length),
        i < k ∧ k < j ∧
        (provTraceP c region account s).get ⟨i, hi⟩ = Ev.associate pid arns ∧
        arns.length = 3 ∧
        (provTraceP c region account s).get ⟨k, hk⟩ = Ev.waitA pid) := by
  obtain ⟨nid, sid, aid, pid, narn, sarn, aarn, n, hchar⟩ :=
    provisionPortfolio_char c region account s
  revert hj
  rw [hchar]
  intro hj
  have hb := hj
  simp only [List.length_take, fullTraceP_length, lt_min_iff] at hb
  rw [List.take_take, Nat.min_eq_left (Nat.le_of_lt hb.1)]
  simp only [List.get_eq_getElem, List.getElem_take]
  have hj23 : j < 23 := hb.2
  interval_cases j <;>
    refine ⟨fun h => ?_, fun h => ?_⟩ <;>
    simp only [fullTraceP, leafChain, supChainTail, List.cons_append, List.nil_append,
      List.getElem_cons_zero, List.getElem_cons_succ,
      Ev.createAgent.injEq, Ev.prepareA.injEq, Ev.waitA.injEq, Ev.getLambda.injEq,
      Ev.createAlias.injEq, Ev.associate.injEq, reduceCtorEq, String.reduceEq,
      false_and, and_false] at h
  · refine ⟨nid, sid, aid, ?_, ?_, ?_⟩ <;>
      simp [fullTraceP, leafChain, supChainTail, isSubseq]
  · constructor
    · simp [fullTraceP, leafChain, supChainTail]
    · refine ⟨pid, [narn, sarn, aarn], 19, 20, ?_, ?_, ?_, ?_, ?_, ?_, ?_⟩
      · simp only [List.length_take, fullTraceP_length, lt_min_iff]
        omega
      · simp only [List.length_take, fullTraceP_length, lt_min_iff]
        omega
      · omega
      · omega
      · simp [List.getElem_take, fullTraceP, leafChain, supChainTail]
      · rfl
      · simp [List.getElem_take, fullTraceP, leafChain, supChainTail]

theorem provisionOrderJ (σ : Type) (c : Client σ) (s : σ)
    (j : Nat) (hj : j < (provTraceJ c s).length) :
    ((provTraceJ c s).get ⟨j, hj⟩ = Ev.createAgent "joke_supervisor_agent_1" "SUPERVISOR" →
      ∃ jid, isSubseq (leafChain "joke_agent_1" "joke-alias" jid)
          ((provTraceJ c s).take j) = true) ∧
    ((provTraceJ c s).get ⟨j, hj⟩ = Ev.prepareA "joke_supervisor_agent_1" →
      Ev.createAgent "joke_supervisor_agent_1" "SUPERVISOR" ∈ (provTraceJ c s).take j ∧
      ∃ sid arns i k, ∃ (hi : i < (provTraceJ c s).length) (hk : k < (provTraceJ c s).length),
        i < k ∧ k < j ∧
        (provTraceJ c s).get ⟨i, hi⟩ = Ev.associate sid arns ∧
        arns.length = 1 ∧
        (provTraceJ c s).get ⟨k, hk⟩ = Ev.waitA sid) := by
  obtain ⟨jid, sid, jarn, n, hchar⟩ := provisionJoke_char c s
  revert hj
  rw [hchar]
  intro hj
  have hb := hj
  simp only [List.length_take, fullTraceJ_length, lt_min_iff] at hb
  rw [List.take_take, Nat.min_eq_left (Nat.le_of_lt hb.1)]
  simp only [List.get_eq_getElem, List.getElem_take]
  have hj11 : j < 11 := hb.2
  interval_cases j <;>
    refine ⟨fun h => ?_, fun h => ?_⟩ <;>
    simp only [fullTraceJ, List.getElem_cons_zero, List.getElem_cons_succ,
      Ev.createAgent.injEq, Ev.prepareA.injEq, Ev.waitA.injEq,
      Ev.createAlias.injEq, Ev.associate.injEq, reduceCtorEq, String.reduceEq,
      false_and, and_false] at h
  · exact ⟨jid, by simp [fullTraceJ, leafChain, isSubseq]⟩
  · constructor
    · simp [fullTraceJ]
    · refine ⟨sid, [jarn], 7, 8, ?_, ?_, ?_, ?_, ?_, ?_, ?_⟩
      · simp only [List.length_take, fullTraceJ_length, lt_min_iff]
        omega
      · simp only [List.length_take, fullTraceJ_length, lt_min_iff]
        omega
      · omega
      · omega
      · simp [List.getElem_take, fullTraceJ]
      · rfl
      · simp [List.getElem_take, fullTraceJ]

/-- C1: in every provision run of either script, each leaf agent is created,
awaited, prepared, awaited and aliased before the supervisor agent is
created (with `SUPERVISOR` collaboration mode), and the supervisor's prepare
call is issued only after the supervisor exists, all collaboration links
have been attached in a single association call, and a status wait has
followed the attachment. -/
theorem claim_C1 :
    (∀ (σ : Type) (c : Client σ) (region account : String) (s : σ) (j : Nat)
        (hj : j < (provTraceP c region account s).length),
      ((provTraceP c region account s).get ⟨j, hj⟩ =
          Ev.createAgent "portfolio_assistant" "SUPERVISOR" →
        ∃ nid sid aid,
          isSubseq (leafChain "news_agent" "news-alias" nid)
            ((provTraceP c region account s).take j) = true ∧
          isSubseq (leafChain "stock_data_agent" "stock-data-alias" sid)
            ((provTraceP c region account s).take j) = true ∧
          isSubseq (leafChain "analyst_agent" "analyst-alias" aid)
            ((provTraceP c region account s).take j) = true) ∧
      ((provTraceP c region account s).get ⟨j, hj⟩ = Ev.prepareA "portfolio_assistant" →
        Ev.createAgent "portfolio_assistant" "SUPERVISOR" ∈
            (provTraceP c region account s).take j ∧
        ∃ pid arns i k, ∃ (hi : i < (provTraceP c region account s).length)
            (hk : k < (provTraceP c region account s).length),
          i < k ∧ k < j ∧
          (provTraceP c region account s).get ⟨i, hi⟩ = Ev.associate pid arns ∧
          arns.length = 3 ∧
          (provTraceP c region account s).get ⟨k, hk⟩ = Ev.waitA pid)) ∧
    (∀ (σ : Type) (c : Client σ) (s : σ) (j : Nat) (hj : j < (provTraceJ c s).length),
      ((provTraceJ c s).get ⟨j, hj⟩ = Ev.createAgent "joke_supervisor_agent_1" "SUPERVISOR" →
        ∃ jid, isSubseq (leafChain "joke_agent_1" "joke-alias" jid)
            ((provTraceJ c s).take j) = true) ∧
      ((provTraceJ c s).get ⟨j, hj⟩ = Ev.prepareA "joke_supervisor_agent_1" →
        Ev.createAgent "joke_supervisor_agent_1" "SUPERVISOR" ∈ (provTraceJ c s).take j ∧
        ∃ sid arns i k, ∃ (hi : i < (provTraceJ c s).length) (hk : k < (provTraceJ c s).length),
          i < k ∧ k < j ∧
          (provTraceJ c s).get ⟨i, hi⟩ = Ev.associate sid arns ∧
          arns.length = 1 ∧
          (provTraceJ c s).get ⟨k, hk⟩ = Ev.waitA sid)) :=
  ⟨provisionOrderP, provisionOrderJ⟩

/-- Witness for C1: on an all-success control plane, the supervisor creation
of the portfolio run sits at index 17 and that of the joke run at index 5,
and the full leaf chains indeed occur before them. -/
theorem claim_C1_witness :
    (∃ nid sid aid,
      isSubseq (leafChain "news_agent" "news-alias" nid)
        ((provTraceP (PureClient.toClient okPure) "us-west-2" "111122223333" ()).take 17) = true ∧
      isSubseq (leafChain "stock_data_agent" "stock-data-alias" sid)
        ((provTraceP (PureClient.toClient okPure) "us-west-2" "111122223333" ()).take 17) = true ∧
      isSubseq (leafChain "analyst_agent" "analyst-alias" aid)
        ((provTraceP (PureClient.toClient okPure) "us-west-2" "111122223333" ()).take 17) = true) ∧
    (∃ jid, isSubseq (leafChain "joke_agent_1" "joke-alias" jid)
        ((provTraceJ (PureClient.toClient okPure) ()).take 5) = true) := by
  constructor
  · exact (claim_C1.1 Unit (PureClient.toClient okPure) "us-west-2" "111122223333" () 17
      (by decide)).1 (by decide)
  · exact (claim_C1.2 Unit (PureClient.toClient okPure) () 5 (by decide)).1 (by decide)

/-! ### The teardown workflow never raises -/

theorem attempt_fst (x : M σ α) (s : σ) : (attempt x s).1 = .ok () := by
  unfold attempt
  rcases x s with ⟨r, t, s2⟩
  rfl

theorem attempt_trace (x : M σ α) (s : σ) : (attempt x s).2.1 = (x s).2.1 := by
  unfold attempt
  rcases x s with ⟨r, t, s2⟩
  rfl

theorem bindU_fst (x : M σ Unit) (y : M σ Unit) (hx : ∀ s, (x s).1 = .ok ())
    (hy : ∀ s, (y s).1 = .ok ()) (s : σ) : ((x >>= fun _ => y) s).1 = .ok () := by
  rw [M.bind_apply]
  rcases hxs : x s with ⟨r, t, s2⟩
  have h1 := hx s
  rw [hxs] at h1
  dsimp at h1
  subst h1
  dsimp only []
  rcases hys : y s2 with ⟨r2, t2, s3⟩
  have h2 := hy s2
  rw [hys] at h2
  dsimp at h2
  subst h2
  rfl

theorem bindU_trace (x : M σ Unit) (y : M σ Unit) (hx : ∀ s, (x s).1 = .ok ()) (s : σ) :
    ((x >>= fun _ => y) s).2.1 = (x s).2.1 ++ (y (x s).2.2).2.1 := by
  rw [M.bind_apply]
  rcases hxs : x s with ⟨r, t, s2⟩
  have h1 := hx s
  rw [hxs] at h1
  dsimp at h1
  subst h1
  dsimp only []

theorem phaseLoop_ok (step : String → M σ Unit) (hok : ∀ n s, (step n s).1 = .ok ()) :
    ∀ (names : List String) (s : σ), (phaseLoop step names s).1 = .ok () := by
  intro names
  induction names with
  | nil => intro s; rfl
  | cons n rest ih =>
      intro s
      show ((step n >>= fun _ => phaseLoop step rest) s).1 = .ok ()
      exact bindU_fst _ _ (hok n) ih s

theorem phaseLoop_trace_fixed (step : String → M σ Unit) (g : String → List Ev)
    (hok : ∀ n s, (step n s).1 = .ok ()) (htr : ∀ n s, (step n s).2.1 = g n) :
    ∀ (names : List String) (s : σ), (phaseLoop step names s).2.1 = names.flatMap g := by
  intro names
  induction names with
  | nil => intro s; rfl
  | cons n rest ih =>
      intro s
      show ((step n >>= fun _ => phaseLoop step rest) s).2.1 = _
      rw [bindU_trace _ _ (hok n) s, htr n s, ih]
      simp [List.flatMap_cons]

theorem disassocOne_ok (c : Client σ) (n : String) (s : σ) :
    (disassocOne c n s).1 = .ok () := attempt_fst _ _

theorem deleteOne_ok (c : Client σ) (n : String) (s : σ) :
    (deleteOne c n s).1 = .ok () := attempt_fst _ _

theorem guardrailStep_ok (c : Client σ) (s : σ) :
    (guardrailStep c s).1 = .ok () := attempt_fst _ _

/-- The teardown workflow never raises: every failure is caught. -/
theorem cleanupAgents_ok (c : Client σ) (names : List String) (s : σ) :
    (cleanupAgents c names s).1 = .ok () := by
  unfold cleanupAgents
  refine bindU_fst _ _ (phaseLoop_ok _ ?_ names) ?_ s
  · intro n s2
    by_cases h : isSupName n <;> simp [h, disassocOne_ok, M.pure_apply]
  · intro s2
    refine bindU_fst _ _ (phaseLoop_ok _ ?_ names) ?_ s2
    · intro n s3
      by_cases h : isSupName n <;> simp [h, deleteOne_ok, M.pure_apply]
    · intro s3
      refine bindU_fst _ _ (phaseLoop_ok _ ?_ names) ?_ s3
      · intro n s4
        by_cases h : isSupName n <;> simp [h, deleteOne_ok, M.pure_apply]
      · intro s4
        exact guardrailStep_ok c s4

/-! ### Trace equations against a pure client -/

theorem pureGet_apply (pc : PureClient) (n : String) (s : Unit) :
    pc.toClient.getAgentIdByName n s = (pc.getAgentIdByName n, s) := rfl

theorem pureList_apply (pc : PureClient) (i : String) (s : Unit) :
    pc.toClient.listAgentAliases i s = (pc.listAgentAliases i, s) := rfl

theorem unitEq (u : Unit) : u = () := rfl

theorem disassocOne_trace_pure (pc : PureClient) (n : String) :
    (disassocOne pc.toClient n ()).2.1 = disassocTrace pc n := by
  unfold disassocOne disassocTrace
  rw [attempt_trace]
  rw [M.bind_apply, opCall_apply]
  dsimp only [PureClient.toClient]
  rcases pc.getAgentIdByName n with e | o
  · rfl
  rcases o with _ | id
  · rfl
  dsimp only []
  rw [attempt_trace, M.bind_apply, opCall_apply]
  dsimp only []
  rcases pc.updateAgentDisable id with e | u
  · rfl
  · rfl

theorem deleteAliasLoop_trace_pure (pc : PureClient) (id : String) :
    ∀ as : List String,
      (deleteAliasLoop pc.toClient id as ()).2.1 = as.map (Ev.deleteAlias id) ∧
      (deleteAliasLoop pc.toClient id as ()).1 = .ok () := by
  intro as
  induction as with
  | nil => exact ⟨rfl, rfl⟩
  | cons al rest ih =>
      constructor
      · show ((attempt _ >>= fun _ => deleteAliasLoop pc.toClient id rest) ()).2.1 = _
        rw [bindU_trace _ _ (fun s => attempt_fst _ _) ()]
        rw [attempt_trace, opCall_apply]
        simp only [unitEq]
        rw [ih.1]
        rfl
      · show ((attempt _ >>= fun _ => deleteAliasLoop pc.toClient id rest) ()).1 = _
        exact bindU_fst _ _ (fun s => attempt_fst _ _) (fun s => ih.2) ()

theorem deleteOne_trace_pure (pc : PureClient) (n : String) :
    (deleteOne pc.toClient n ()).2.1 = deleteOneTrace pc n := by
  unfold deleteOne deleteOneTrace
  rw [attempt_trace]
  rw [M.bind_apply, opCall_apply]
  simp only [pureGet_apply]
  try dsimp only []
  rcases pc.getAgentIdByName n with e | o
  · rfl
  rcases o with _ | id
  · rfl
  try dsimp only []
  rw [M.bind_apply, opListAliases_apply]
  simp only [pureList_apply]
  try dsimp only []
  rcases pc.listAgentAliases id with e | as
  · rfl
  try dsimp only []
  rcases hLoop : deleteAliasLoop pc.toClient id as () with ⟨rL, tL, sL⟩
  have hT := (deleteAliasLoop_trace_pure pc id as).1
  have hO := (deleteAliasLoop_trace_pure pc id as).2
  rw [hLoop] at hT hO
  dsimp at hT hO
  subst hT
  subst hO
  try dsimp only []
  rw [attempt_trace, opCall_apply]
  rfl

theorem pureListG_apply (pc : PureClient) (s : Unit) :
    pc.toClient.listGuardrails s = (pc.listGuardrails, s) := rfl

theorem pureDelG_apply (pc : PureClient) (g : String) (s : Unit) :
    pc.toClient.deleteGuardrail g s = (pc.deleteGuardrail g, s) := rfl

theorem guardrailLoop_trace_pure (pc : PureClient) :
    ∀ gs : List (String × String),
      (guardrailLoop pc.toClient gs ()).2.1 = guardrailScanTrace pc gs := by
  intro gs
  induction gs with
  | nil => rfl
  | cons g rest ih =>
      rcases g with ⟨gname, gid⟩
      unfold guardrailLoop guardrailScanTrace
      by_cases h : gname = "no_bitcoin_guardrail"
      · rw [if_pos h, if_pos h]
        rw [M.bind_apply, opCall_apply]
        try simp only [pureDelG_apply]
        try dsimp only []
        rcases pc.deleteGuardrail gid with e | u
        · rfl
        · try dsimp only []
          try simp only [unitEq]
          rw [ih]
          rfl
      · rw [if_neg h, if_neg h]
        exact ih

theorem guardrailStep_trace_pure (pc : PureClient) :
    (guardrailStep pc.toClient ()).2.1 = guardrailTrace pc := by
  unfold guardrailStep guardrailTrace
  rw [attempt_trace, M.bind_apply, opCall_apply]
  try simp only [pureListG_apply]
  try dsimp only []
  rcases pc.listGuardrails with e | gs
  · rfl
  try dsimp only []
  try simp only [unitEq]
  rw [guardrailLoop_trace_pure]
  rfl

/-- The teardown trace against a pure client, in closed form. -/
theorem cleanupTrace_pure (pc : PureClient) (names : List String) :
    cleanupTrace pc.toClient names () = cleanupTracePure pc names := by
  have hok1 : ∀ n s, ((fun m => if isSupName m then disassocOne pc.toClient m
      else pure ()) n s).1 = .ok () := by
    intro n s
    by_cases h : isSupName n <;> simp [h, disassocOne_ok, M.pure_apply]
  have htr1 : ∀ n s, ((fun m => if isSupName m then disassocOne pc.toClient m
      else pure ()) n s).2.1 =
      (fun m => if isSupName m then disassocTrace pc m else []) n := by
    intro n s
    by_cases h : isSupName n <;>
      simp [h, M.pure_apply, unitEq, disassocOne_trace_pure]
  have hok2 : ∀ n s, ((fun m => if isSupName m then deleteOne pc.toClient m
      else pure ()) n s).1 = .ok () := by
    intro n s
    by_cases h : isSupName n <;> simp [h, deleteOne_ok, M.pure_apply]
  have htr2 : ∀ n s, ((fun m => if isSupName m then deleteOne pc.toClient m
      else pure ()) n s).2.1 =
      (fun m => if isSupName m then deleteOneTrace pc m else []) n := by
    intro n s
    by_cases h : isSupName n <;>
      simp [h, M.pure_apply, unitEq, deleteOne_trace_pure]
  have hok3 : ∀ n s, ((fun m => if isSupName m then pure ()
      else deleteOne pc.toClient m) n s).1 = .ok () := by
    intro n s
    by_cases h : isSupName n <;> simp [h, deleteOne_ok, M.pure_apply]
  have htr3 : ∀ n s, ((fun m => if isSupName m then pure ()
      else deleteOne pc.toClient m) n s).2.1 =
      (fun m => if isSupName m then [] else deleteOneTrace pc m) n := by
    intro n s
    by_cases h : isSupName n <;>
      simp [h, M.pure_apply, unitEq, deleteOne_trace_pure]
  unfold cleanupTrace cleanupAgents cleanupTracePure
  rw [bindU_trace _ _ (phaseLoop_ok _ hok1 names)]
  rw [phaseLoop_trace_fixed _ _ hok1 htr1 names]
  congr 1
  simp only [unitEq]
  rw [bindU_trace _ _ (phaseLoop_ok _ hok2 names)]
  rw [phaseLoop_trace_fixed _ _ hok2 htr2 names]
  congr 1
  simp only [unitEq]
  rw [bindU_trace _ _ (phaseLoop_ok _ hok3 names)]
  rw [phaseLoop_trace_fixed _ _ hok3 htr3 names]
  congr 1
  simp only [unitEq]
  exact guardrailStep_trace_pure pc

theorem disassocOne_trace_absent (c : Client σ)
    (hget : ∀ n s, (c.getAgentIdByName n s).1 = .ok none) (n : String) (s : σ) :
    (disassocOne c n s).2.1 = [Ev.getId n] := by
  unfold disassocOne
  rw [attempt_trace, M.bind_apply, opCall_apply]
  rcases hc : c.getAgentIdByName n s with ⟨r, s2⟩
  have h := hget n s
  rw [hc] at h
  dsimp at h
  subst h
  rfl

theorem deleteOne_trace_absent (c : Client σ)
    (hget : ∀ n s, (c.getAgentIdByName n s).1 = .ok none) (n : String) (s : σ) :
    (deleteOne c n s).2.1 = [Ev.getId n] := by
  unfold deleteOne
  rw [attempt_trace, M.bind_apply, opCall_apply]
  rcases hc : c.getAgentIdByName n s with ⟨r, s2⟩
  have h := hget n s
  rw [hc] at h
  dsimp at h
  subst h
  rfl

theorem guardrailStep_trace_empty (c : Client σ)
    (hlist : ∀ s, (c.listGuardrails s).1 = .ok []) (s : σ) :
    (guardrailStep c s).2.1 = [Ev.listGuardrails] := by
  unfold guardrailStep
  rw [attempt_trace, M.bind_apply, opCall_apply]
  rcases hc : c.listGuardrails s with ⟨r, s2⟩
  have h := hlist s
  rw [hc] at h
  dsimp at h
  subst h
  rfl

/-- C3: teardown is best-effort under every pattern of per-resource failures:
it never raises, the final guardrail step is always reached, every name is
always looked up, and whenever an agent is resolved and its aliases listed,
a delete is attempted for all of those aliases and for the agent itself. -/
theorem claim_C3 :
    (∀ (σ : Type) (c : Client σ) (names : List String) (s : σ),
      (cleanupAgents c names s).1 = .ok ()) ∧
    (∀ (pc : PureClient) (names : List String),
      Ev.listGuardrails ∈ cleanupTrace pc.toClient names ()) ∧
    (∀ (pc : PureClient) (names : List String) (n : String), n ∈ names →
      Ev.getId n ∈ cleanupTrace pc.toClient names ()) ∧
    (∀ (pc : PureClient) (names : List String) (n id : String) (as : List String),
      n ∈ names → pc.getAgentIdByName n = .ok (some id) →
      pc.listAgentAliases id = .ok as →
      (∀ al ∈ as, Ev.deleteAlias id al ∈ cleanupTrace pc.toClient names ()) ∧
      Ev.deleteAgent id ∈ cleanupTrace pc.toClient names ()) := by
  refine ⟨fun σ c names s => cleanupAgents_ok c names s, ?_, ?_, ?_⟩
  · intro pc names
    rw [cleanupTrace_pure]
    simp [cleanupTracePure, guardrailTrace]
  · intro pc names n hn
    rw [cleanupTrace_pure]
    simp only [cleanupTracePure, List.mem_append, List.mem_flatMap]
    by_cases hsup : isSupName n
    · exact Or.inr (Or.inl ⟨n, hn, by simp [hsup, deleteOneTrace]⟩)
    · exact Or.inr (Or.inr (Or.inl ⟨n, hn, by simp [hsup, deleteOneTrace]⟩))
  · intro pc names n id as hn hget hlist
    constructor
    · intro al hal
      rw [cleanupTrace_pure]
      simp only [cleanupTracePure, List.mem_append, List.mem_flatMap]
      by_cases hsup : isSupName n
      · exact Or.inr (Or.inl ⟨n, hn, by
          simp [hsup, deleteOneTrace, hget, hlist, List.mem_map, hal]⟩)
      · exact Or.inr (Or.inr (Or.inl ⟨n, hn, by
          simp [hsup, deleteOneTrace, hget, hlist, List.mem_map, hal]⟩))
    · rw [cleanupTrace_pure]
      simp only [cleanupTracePure, List.mem_append, List.mem_flatMap]
      by_cases hsup : isSupName n
      · exact Or.inr (Or.inl ⟨n, hn, by simp [hsup, deleteOneTrace, hget, hlist]⟩)
      · exact Or.inr (Or.inr (Or.inl ⟨n, hn, by
          simp [hsup, deleteOneTrace, hget, hlist]⟩))

/-- Witness for C3 on a client with mixed per-resource failures. -/
theorem claim_C3_witness :
    (cleanupAgents (PureClient.toClient failSomePure) agentNames ()).1 = .ok () ∧
    Ev.listGuardrails ∈ cleanupTrace (PureClient.toClient failSomePure) agentNames () ∧
    Ev.getId "news_agent" ∈ cleanupTrace (PureClient.toClient failSomePure) agentNames () ∧
    ((∀ al ∈ (["A1", "A2"] : List String),
        Ev.deleteAlias "ID-portfolio_assistant" al ∈
          cleanupTrace (PureClient.toClient failSomePure) agentNames ()) ∧
      Ev.deleteAgent "ID-portfolio_assistant" ∈
        cleanupTrace (PureClient.toClient failSomePure) agentNames ()) :=
  ⟨claim_C3.1 Unit (PureClient.toClient failSomePure) agentNames (),
   claim_C3.2.1 failSomePure agentNames,
   claim_C3.2.2.1 failSomePure agentNames "news_agent" (by decide),
   claim_C3.2.2.2 failSomePure agentNames "portfolio_assistant" "ID-portfolio_assistant"
     ["A1", "A2"] (by decide) rfl rfl⟩

/-- C4: teardown is idempotent — an immediate second run raises no fatal
error (indeed no run ever raises), and against an already-empty hierarchy
(every name lookup absent, no guardrails) the workflow performs no mutating
operations at all. -/
theorem claim_C4 :
    (∀ (σ : Type) (c : Client σ) (names : List String) (s : σ),
      (cleanupAgents c names ((cleanupAgents c names s).2.2)).1 = .ok ()) ∧
    (∀ (σ : Type) (c : Client σ) (names : List String) (s : σ),
      (∀ n s', (c.getAgentIdByName n s').1 = .ok none) →
      (∀ s', (c.listGuardrails s').1 = .ok []) →
      (cleanupTrace c names s).all (fun e => !isMutatingEv e) = true) := by
  constructor
  · intro σ c names s
    exact cleanupAgents_ok c names _
  · intro σ c names s hget hlist
    have hok1 : ∀ n s2, ((fun m => if isSupName m then disassocOne c m
        else pure ()) n s2).1 = .ok () := by
      intro n s2
      by_cases h : isSupName n <;> simp [h, disassocOne_ok, M.pure_apply]
    have htr1 : ∀ n s2, ((fun m => if isSupName m then disassocOne c m
        else pure ()) n s2).2.1 =
        (fun m => if isSupName m then [Ev.getId m] else []) n := by
      intro n s2
      by_cases h : isSupName n <;>
        simp [h, M.pure_apply, disassocOne_trace_absent c hget]
    have hok2 : ∀ n s2, ((fun m => if isSupName m then deleteOne c m
        else pure ()) n s2).1 = .ok () := by
      intro n s2
      by_cases h : isSupName n <;> simp [h, deleteOne_ok, M.pure_apply]
    have htr2 : ∀ n s2, ((fun m => if isSupName m then deleteOne c m
        else pure ()) n s2).2.1 =
        (fun m => if isSupName m then [Ev.getId m] else []) n := by
      intro n s2
      by_cases h : isSupName n <;>
        simp [h, M.pure_apply, deleteOne_trace_absent c hget]
    have hok3 : ∀ n s2, ((fun m => if isSupName m then pure ()
        else deleteOne c m) n s2).1 = .ok () := by
      intro n s2
      by_cases h : isSupName n <;> simp [h, deleteOne_ok, M.pure_apply]
    have htr3 : ∀ n s2, ((fun m => if isSupName m then pure ()
        else deleteOne c m) n s2).2.1 =
        (fun m => if isSupName m then [] else [Ev.getId m]) n := by
      intro n s2
      by_cases h : isSupName n <;>
        simp [h, M.pure_apply, deleteOne_trace_absent c hget]
    unfold cleanupTrace cleanupAgents
    rw [bindU_trace _ _ (phaseLoop_ok _ hok1 names)]
    rw [phaseLoop_trace_fixed _ _ hok1 htr1 names]
    rw [bindU_trace _ _ (phaseLoop_ok _ hok2 names)]
    rw [phaseLoop_trace_fixed _ _ hok2 htr2 names]
    rw [bindU_trace _ _ (phaseLoop_ok _ hok3 names)]
    rw [phaseLoop_trace_fixed _ _ hok3 htr3 names]
    rw [guardrailStep_trace_empty c hlist]
    rw [List.all_eq_true]
    intro e he
    simp only [List.mem_append, List.mem_flatMap] at he
    rcases he with (⟨n, hn, he⟩ | ⟨n, hn, he⟩ | ⟨n, hn, he⟩ | he) <;>
      first
        | (split_ifs at he <;> simp_all [isMutatingEv])
        | simp_all [isMutatingEv]

/-- Witness for C4 on an already-empty control plane. -/
theorem claim_C4_witness :
    (cleanupAgents (PureClient.toClient absentPure) agentNames
        ((cleanupAgents (PureClient.toClient absentPure) agentNames ()).2.2)).1 = .ok () ∧
    (cleanupTrace (PureClient.toClient absentPure) agentNames ()).all
        (fun e => !isMutatingEv e) = true :=
  ⟨claim_C4.1 Unit (PureClient.toClient absentPure) agentNames (),
   claim_C4.2 Unit (PureClient.toClient absentPure) agentNames ()
     (fun n s' => rfl) (fun s' => rfl)⟩

/-! ### Ordering facts about the teardown trace -/

theorem noneBefore_of_not_mem (e tgt : Ev) :
    ∀ t : List Ev, e ∉ t → noneBefore e tgt t = true := by
  intro t
  induction t with
  | nil => intro _; rfl
  | cons x xs ih =>
      intro hx
      rw [List.mem_cons, not_or] at hx
      unfold noneBefore
      split_ifs with h1 h2
      · rfl
      · exact absurd h2.symm hx.1
      · exact ih hx.2

theorem noneBefore_append_left (e tgt : Ev) :
    ∀ t1 t2 : List Ev, e ∉ t1 → noneBefore e tgt t2 = true →
      noneBefore e tgt (t1 ++ t2) = true := by
  intro t1
  induction t1 with
  | nil => intro t2 _ h2; simpa using h2
  | cons x xs ih =>
      intro t2 hx h2
      rw [List.mem_cons, not_or] at hx
      rw [List.cons_append]
      unfold noneBefore
      split_ifs with h1 hxe
      · rfl
      · exact absurd hxe.symm hx.1
      · exact ih t2 hx.2 h2

theorem noneBefore_append_stop (e tgt : Ev) :
    ∀ t1 t2 : List Ev, tgt ∈ t1 → noneBefore e tgt t1 = true →
      noneBefore e tgt (t1 ++ t2) = true := by
  intro t1
  induction t1 with
  | nil => intro t2 h _; exact absurd h (List.not_mem_nil tgt)
  | cons x xs ih =>
      intro t2 htgt h1
      rw [List.cons_append]
      unfold noneBefore at h1 ⊢
      split_ifs with hx1 hx2
      · rfl
      · rw [if_neg hx1, if_pos hx2] at h1
        exact absurd h1 (by simp)
      · rw [if_neg hx1, if_neg hx2] at h1
        have htgt2 : tgt ∈ xs := by
          rcases List.mem_cons.mp htgt with h | h
          · exact absurd h.symm hx1
          · exact h
        exact ih t2 htgt2 h1

theorem noneBefore_cons_of_ne (e tgt x : Ev) (t : List Ev) (h1 : x ≠ tgt) (h2 : x ≠ e) :
    noneBefore e tgt (x :: t) = noneBefore e tgt t := by
  show (if x = tgt then true else if x = e then false else noneBefore e tgt t) =
    noneBefore e tgt t
  rw [if_neg h1, if_neg h2]

theorem noneBefore_flat (e tgt : Ev) :
    ∀ bs : List (List Ev),
      (∀ b ∈ bs, (∀ x ∈ b, x ≠ e) ∨ (tgt ∈ b ∧ noneBefore e tgt b = true)) →
      noneBefore e tgt bs.flatten = true := by
  intro bs
  induction bs with
  | nil => intro _; rfl
  | cons b rest ih =>
      intro h
      rw [List.flatten_cons]
      rcases h b (List.mem_cons_self b rest) with hb | ⟨hbt, hbn⟩
      · exact noneBefore_append_left e tgt b _ (fun he => (hb e he) rfl)
          (ih (fun b2 hb2 => h b2 (List.mem_cons_of_mem _ hb2)))
      · exact noneBefore_append_stop e tgt b _ hbt hbn

theorem mem_disassocTrace (pc : PureClient) (n : String) (x : Ev)
    (hx : x ∈ disassocTrace pc n) :
    x = Ev.getId n ∨ (∃ i, x = Ev.updateDisable i) ∨ ∃ i, x = Ev.waitA i := by
  unfold disassocTrace at hx
  rcases hg : pc.getAgentIdByName n with er | o <;> rw [hg] at hx
  · simp at hx
    exact Or.inl hx
  rcases o with _ | id
  · simp at hx
    exact Or.inl hx
  try dsimp only [] at hx
  rcases hu : pc.updateAgentDisable id with er2 | u <;> rw [hu] at hx <;> simp at hx
  · rcases hx with hx | hx
    · exact Or.inl hx
    · exact Or.inr (Or.inl ⟨id, hx⟩)
  · rcases hx with hx | hx | hx
    · exact Or.inl hx
    · exact Or.inr (Or.inl ⟨id, hx⟩)
    · exact Or.inr (Or.inr ⟨id, hx⟩)

theorem mem_deleteOneTrace (pc : PureClient) (m : String) (x : Ev)
    (hx : x ∈ deleteOneTrace pc m) :
    x = Ev.getId m ∨
    ∃ id, pc.getAgentIdByName m = .ok (some id) ∧
      (x = Ev.listAliases id (pc.listAgentAliases id).toOption ∨
       (∃ as al, pc.listAgentAliases id = .ok as ∧ al ∈ as ∧ x = Ev.deleteAlias id al) ∨
       (∃ as, pc.listAgentAliases id = .ok as ∧ x = Ev.deleteAgent id)) := by
  unfold deleteOneTrace at hx
  rcases hg : pc.getAgentIdByName m with er | o <;> rw [hg] at hx
  · simp at hx
    exact Or.inl hx
  rcases o with _ | id
  · simp at hx
    exact Or.inl hx
  try dsimp only [] at hx
  rcases hl : pc.listAgentAliases id with er2 | as <;> rw [hl] at hx <;> simp at hx
  · rcases hx with hx | hx
    · exact Or.inl hx
    · exact Or.inr ⟨id, rfl, Or.inl (by rw [hx, hl])⟩
  · rcases hx with hx | hx | ⟨al, hal, hx⟩ | hx
    · exact Or.inl hx
    · exact Or.inr ⟨id, rfl, Or.inl (by rw [hx, hl])⟩
    · exact Or.inr ⟨id, rfl, Or.inr (Or.inl ⟨as, al, hl, hal, hx.symm⟩)⟩
    · exact Or.inr ⟨id, rfl, Or.inr (Or.inr ⟨as, hl, hx⟩)⟩

theorem mem_guardrailScanTrace (pc : PureClient) :
    ∀ (gs : List (String × String)) (x : Ev), x ∈ guardrailScanTrace pc gs →
      ∃ g, x = Ev.deleteGuardrail g := by
  intro gs
  induction gs with
  | nil => intro x hx; exact absurd hx (List.not_mem_nil x)
  | cons g rest ih =>
      intro x hx
      rcases g with ⟨gname, gid⟩
      unfold guardrailScanTrace at hx
      by_cases h : gname = "no_bitcoin_guardrail"
      · rw [if_pos h] at hx
        rcases hd : pc.deleteGuardrail gid with er | u <;> rw [hd] at hx <;> simp at hx
        · exact ⟨gid, hx⟩
        · rcases hx with hx | hx
          · exact ⟨gid, hx⟩
          · exact ih x hx
      · rw [if_neg h] at hx
        exact ih x hx

theorem mem_guardrailTrace (pc : PureClient) (x : Ev) (hx : x ∈ guardrailTrace pc) :
    x = Ev.listGuardrails ∨ ∃ g, x = Ev.deleteGuardrail g := by
  unfold guardrailTrace at hx
  rcases hl : pc.listGuardrails with er | gs <;> rw [hl] at hx <;> simp at hx
  · exact Or.inl hx
  · rcases hx with hx | hx
    · exact Or.inl hx
    · exact Or.inr (mem_guardrailScanTrace pc gs x hx)

theorem noneBefore_aliasScan (id al : String) :
    ∀ (as : List String) (rest : List Ev), al ∈ as →
      noneBefore (Ev.deleteAgent id) (Ev.deleteAlias id al)
        (as.map (Ev.deleteAlias id) ++ rest) = true := by
  intro as
  induction as with
  | nil => intro rest h; exact absurd h (List.not_mem_nil al)
  | cons a as2 ih =>
      intro rest hal
      rw [List.map_cons, List.cons_append]
      by_cases h : a = al
      · unfold noneBefore
        rw [if_pos (by rw [h])]
      · rw [noneBefore_cons_of_ne _ _ _ _ (by simp [h]) (by simp)]
        refine ih rest ?_
        rcases List.mem_cons.mp hal with h2 | h2
        · exact absurd h2.symm h
        · exact h2

theorem deleteOneTrace_ordered (pc : PureClient) (m id : String) (as : List String) (al : String)
    (hget : pc.getAgentIdByName m = .ok (some id)) (hlist : pc.listAgentAliases id = .ok as)
    (hal : al ∈ as) :
    Ev.deleteAlias id al ∈ deleteOneTrace pc m ∧
    noneBefore (Ev.deleteAgent id) (Ev.deleteAlias id al) (deleteOneTrace pc m) = true := by
  unfold deleteOneTrace
  rw [hget]
  try dsimp only []
  rw [hlist]
  try dsimp only []
  constructor
  · simp [hal]
  · rw [noneBefore_cons_of_ne _ _ _ _ (by simp) (by simp)]
    rw [noneBefore_cons_of_ne _ _ _ _ (by simp) (by simp)]
    exact noneBefore_aliasScan id al as _ hal

theorem deleteOne_block_cond (pc : PureClient) (m id al : String) (as : List String)
    (hlist : pc.listAgentAliases id = .ok as) (hal : al ∈ as) :
    (∀ x ∈ deleteOneTrace pc m, x ≠ Ev.deleteAgent id) ∨
    (Ev.deleteAlias id al ∈ deleteOneTrace pc m ∧
     noneBefore (Ev.deleteAgent id) (Ev.deleteAlias id al) (deleteOneTrace pc m) = true) := by
  by_cases hg : pc.getAgentIdByName m = .ok (some id)
  · exact Or.inr (deleteOneTrace_ordered pc m id as al hg hlist hal)
  · left
    intro x hx hxe
    subst hxe
    rcases mem_deleteOneTrace pc m _ hx with h | ⟨id2, hg2, hrest⟩
    · exact absurd h (by simp)
    · rcases hrest with h | ⟨as2, al2, _, _, h⟩ | ⟨as2, _, h⟩
      · exact absurd h (by simp)
      · exact absurd h (by simp)
      · have hid : id = id2 := by simpa using h
        subst hid
        exact hg hg2

theorem no_agentDelete_in_disassocBlocks (pc : PureClient) (sub : List String) (i : String) :
    Ev.deleteAgent i ∉
      ((sub.map (fun n => if isSupName n then disassocTrace pc n else [])).flatten) := by
  intro hmem
  rw [List.mem_flatten] at hmem
  obtain ⟨b, hb, hx⟩ := hmem
  obtain ⟨m, _, rfl⟩ := List.mem_map.mp hb
  split_ifs at hx
  · rcases mem_disassocTrace pc m _ hx with h | ⟨i2, h⟩ | ⟨i2, h⟩ <;> simp at h
  · exact absurd hx (List.not_mem_nil _)

theorem no_agentDelete_in_supBlocks (pc : PureClient) (names : List String) (idl : String)
    (hnol : ∀ m ∈ names, isSupName m = true → pc.getAgentIdByName m ≠ .ok (some idl))
    (sub : List String) (hsub : ∀ m ∈ sub, m ∈ names) :
    Ev.deleteAgent idl ∉
      ((sub.map (fun n => if isSupName n then deleteOneTrace pc n else [])).flatten) := by
  intro hmem
  rw [List.mem_flatten] at hmem
  obtain ⟨b, hb, hx⟩ := hmem
  obtain ⟨m, hm, rfl⟩ := List.mem_map.mp hb
  split_ifs at hx with hsup
  · rcases mem_deleteOneTrace pc m _ hx with h | ⟨id2, hg2, hrest⟩
    · exact absurd h (by simp)
    · rcases hrest with h | ⟨as2, al2, _, _, h⟩ | ⟨as2, _, h⟩
      · exact absurd h (by simp)
      · exact absurd h (by simp)
      · have hid : idl = id2 := by simpa using h
        subst hid
        exact hnol m (hsub m hm) hsup hg2
  · exact absurd hx (List.not_mem_nil _)

theorem no_agentDelete_in_guardrail (pc : PureClient) (i : String) :
    Ev.deleteAgent i ∉ guardrailTrace pc := by
  intro hmem
  rcases mem_guardrailTrace pc _ hmem with h | ⟨g, h⟩ <;> simp at h

theorem cleanupTracePure_flatten (pc : PureClient) (names : List String) :
    cleanupTracePure pc names =
      ((names.map (fun n => if isSupName n then disassocTrace pc n else [])) ++
       ((names.map (fun n => if isSupName n then deleteOneTrace pc n else [])) ++
        ((names.map (fun n => if isSupName n then [] else deleteOneTrace pc n)) ++
         [guardrailTrace pc]))).flatten := by
  unfold cleanupTracePure
  rw [List.flatten_append, List.flatten_append, List.flatten_append]
  simp [List.flatMap]

/-- C2 (amended): in every teardown run, a delete_agent call is issued only
after a delete has been attempted for every alias the control plane reports
the agent owning; for every supervisor-tagged agent a disassociation is
attempted before any delete of it, and when the disassociation succeeds a
status wait also precedes the delete; supervisor-tagged agents' deletions
precede the leaf agents' deletions. -/
theorem claim_C2 (pc : PureClient) (names : List String) :
    (∀ (n id : String) (as : List String) (al : String), n ∈ names →
      pc.getAgentIdByName n = .ok (some id) →
      pc.listAgentAliases id = .ok as → al ∈ as →
      noneBefore (Ev.deleteAgent id) (Ev.deleteAlias id al)
        (cleanupTrace pc.toClient names ()) = true) ∧
    (∀ n id, n ∈ names → isSupName n = true → pc.getAgentIdByName n = .ok (some id) →
      noneBefore (Ev.deleteAgent id) (Ev.updateDisable id)
        (cleanupTrace pc.toClient names ()) = true ∧
      (pc.updateAgentDisable id = .ok () →
        noneBefore (Ev.deleteAgent id) (Ev.waitA id)
          (cleanupTrace pc.toClient names ()) = true)) ∧
    (∀ (ns nl ids idl : String) (ass : List String), ns ∈ names → isSupName ns = true →
      nl ∈ names → isSupName nl = false →
      pc.getAgentIdByName ns = .ok (some ids) → pc.getAgentIdByName nl = .ok (some idl) →
      pc.listAgentAliases ids = .ok ass →
      (∀ m ∈ names, isSupName m = true → pc.getAgentIdByName m ≠ .ok (some idl)) →
      noneBefore (Ev.deleteAgent idl) (Ev.deleteAgent ids)
        (cleanupTrace pc.toClient names ()) = true) := by
  refine ⟨?_, ?_, ?_⟩
  · intro n id as al hn hget hlist hal
    rw [cleanupTrace_pure, cleanupTracePure_flatten]
    apply noneBefore_flat
    intro b hb
    simp only [List.mem_append, List.mem_map, List.mem_singleton] at hb
    rcases hb with ⟨m, hm, rfl⟩ | ⟨m, hm, rfl⟩ | ⟨m, hm, rfl⟩ | rfl
    · left
      intro x hx hxe
      subst hxe
      split_ifs at hx
      · rcases mem_disassocTrace pc m _ hx with h | ⟨i2, h⟩ | ⟨i2, h⟩ <;> simp at h
      · exact absurd hx (List.not_mem_nil _)
    · split_ifs with hsup
      · exact deleteOne_block_cond pc m id al as hlist hal
      · left
        intro x hx
        exact absurd hx (List.not_mem_nil _)
    · split_ifs with hsup
      · left
        intro x hx
        exact absurd hx (List.not_mem_nil _)
      · exact deleteOne_block_cond pc m id al as hlist hal
    · left
      intro x hx hxe
      subst hxe
      exact no_agentDelete_in_guardrail pc id hx
  · intro n id hn hsup hget
    obtain ⟨l1, l2, rfl⟩ := List.append_of_mem hn
    have key : ∀ tgt, tgt ∈ disassocTrace pc n →
        noneBefore (Ev.deleteAgent id) tgt
          (cleanupTrace pc.toClient (l1 ++ n :: l2) ()) = true := by
      intro tgt htgt
      rw [cleanupTrace_pure, cleanupTracePure_flatten]
      rw [List.map_append, List.map_cons]
      rw [List.append_assoc, List.cons_append, List.flatten_append, List.flatten_cons]
      refine noneBefore_append_left _ _ _ _ (no_agentDelete_in_disassocBlocks pc l1 id) ?_
      refine noneBefore_append_stop _ _ _ _ ?_ ?_
      · rw [if_pos hsup]
        exact htgt
      · rw [if_pos hsup]
        apply noneBefore_of_not_mem
        intro hmem
        rcases mem_disassocTrace pc n _ hmem with h | ⟨i2, h⟩ | ⟨i2, h⟩ <;> simp at h
    constructor
    · refine key (Ev.updateDisable id) ?_
      unfold disassocTrace
      rw [hget]
      simp
    · intro hupd
      refine key (Ev.waitA id) ?_
      unfold disassocTrace
      rw [hget]
      try dsimp only []
      rw [hupd]
      simp
  · intro ns nl ids idl ass hns hsupns hnl hsupnl hgets hgetl hlists hnol
    have hne : ids ≠ idl := by
      intro h
      exact hnol ns hns hsupns (h ▸ hgets)
    obtain ⟨l1, l2, hsplit⟩ := List.append_of_mem hns
    rw [cleanupTrace_pure, cleanupTracePure_flatten]
    rw [List.flatten_append]
    refine noneBefore_append_left _ _ _ _ (no_agentDelete_in_disassocBlocks pc _ idl) ?_
    have hMB : (names.map (fun n => if isSupName n then deleteOneTrace pc n else [])) =
        l1.map (fun n => if isSupName n then deleteOneTrace pc n else []) ++
        ((if isSupName ns then deleteOneTrace pc ns else []) ::
          l2.map (fun n => if isSupName n then deleteOneTrace pc n else [])) := by
      rw [hsplit, List.map_append, List.map_cons]
    rw [hMB, List.append_assoc, List.cons_append, List.flatten_append, List.flatten_cons]
    refine noneBefore_append_left _ _ _ _
      (no_agentDelete_in_supBlocks pc names idl hnol l1
        (fun m hm => by rw [hsplit]; exact List.mem_append_left _ hm)) ?_
    refine noneBefore_append_stop _ _ _ _ ?_ ?_
    · rw [if_pos hsupns]
      unfold deleteOneTrace
      rw [hgets]
      try dsimp only []
      rw [hlists]
      simp
    · rw [if_pos hsupns]
      apply noneBefore_of_not_mem
      intro hmem
      rcases mem_deleteOneTrace pc ns _ hmem with h | ⟨id2, hg2, hrest⟩
      · simp at h
      · rcases hrest with h | ⟨as2, al2, _, _, h⟩ | ⟨as2, _, h⟩
        · simp at h
        · simp at h
        · have hid : idl = id2 := by simpa using h
          subst hid
          rw [hgets] at hg2
          have : ids = idl := by simpa using hg2
          exact hne this

/-- Counterexample to C2 as stated: when the control plane rejects the
disassociation update, the supervisor agent is still deleted and no status
wait for it ever happens, so the delete is not preceded by a completed
disassociation-plus-wait. -/
theorem claim_C2_counterexample :
    Ev.deleteAgent "P1" ∈ cleanupTrace (PureClient.toClient denyUpdatePure) agentNames () ∧
    Ev.waitA "P1" ∉ cleanupTrace (PureClient.toClient denyUpdatePure) agentNames () := by
  decide

/-- Witness for the amended C2 on an all-success control plane. -/
theorem claim_C2_witness :
    noneBefore (Ev.deleteAgent "ID-portfolio_assistant")
      (Ev.deleteAlias "ID-portfolio_assistant" "AL1")
      (cleanupTrace (PureClient.toClient okPure) agentNames ()) = true ∧
    noneBefore (Ev.deleteAgent "ID-portfolio_assistant")
      (Ev.updateDisable "ID-portfolio_assistant")
      (cleanupTrace (PureClient.toClient okPure) agentNames ()) = true ∧
    noneBefore (Ev.deleteAgent "ID-portfolio_assistant") (Ev.waitA "ID-portfolio_assistant")
      (cleanupTrace (PureClient.toClient okPure) agentNames ()) = true ∧
    noneBefore (Ev.deleteAgent "ID-news_agent") (Ev.deleteAgent "ID-portfolio_assistant")
      (cleanupTrace (PureClient.toClient okPure) agentNames ()) = true := by
  have h := claim_C2 okPure agentNames
  exact ⟨h.1 "portfolio_assistant" "ID-portfolio_assistant" ["AL1", "AL2"] "AL1"
      (by decide) rfl rfl (by decide),
    (h.2.1 "portfolio_assistant" "ID-portfolio_assistant" (by decide) (by decide) rfl).1,
    (h.2.1 "portfolio_assistant" "ID-portfolio_assistant" (by decide) (by decide) rfl).2 rfl,
    h.2.2 "portfolio_assistant" "news_agent" "ID-portfolio_assistant" "ID-news_agent"
      ["AL1", "AL2"] (by decide) (by decide) (by decide) (by decide) rfl rfl rfl (by
        intro m hm hsup hEq
        simp only [agentNames, List.mem_cons] at hm
        rcases hm with rfl | rfl | rfl | rfl | hm
        · exact absurd hEq (by simp [okPure])
        · exact absurd hsup (by decide)
        · exact absurd hsup (by decide)
        · exact absurd hsup (by decide)
        · exact absurd hm (List.not_mem_nil m))⟩

/-! ### No invocation happens during teardown or provisioning -/

theorem mem_bind_trace (x : M σ α) (f : α → M σ β) (s : σ) (e : Ev)
    (he : e ∈ ((x >>= f) s).2.1) :
    e ∈ (x s).2.1 ∨ ∃ a, (x s).1 = .ok a ∧ e ∈ (f a (x s).2.2).2.1 := by
  rw [M.bind_apply] at he
  rcases hx : x s with ⟨r, t, s2⟩
  rw [hx] at he
  rcases r with er | a
  · dsimp at he
    exact Or.inl he
  · dsimp at he
    rcases hf : f a s2 with ⟨r2, t2, s3⟩
    rw [hf] at he
    dsimp at he
    rcases List.mem_append.mp he with h | h
    · exact Or.inl h
    · refine Or.inr ⟨a, rfl, ?_⟩
      show e ∈ (f a s2).2.1
      rw [hf]
      exact h

theorem mem_opCall_trace (e0 : Ev) (op : σ → Except String α × σ) (s : σ) (e : Ev)
    (he : e ∈ (opCall e0 op s).2.1) : e = e0 := by
  rw [opCall_apply] at he
  simpa using he

theorem disassocOne_no_invoke (c : Client σ) (n : String) (s : σ) :
    ∀ e ∈ (disassocOne c n s).2.1, isInvokeEv e = false := by
  intro e he
  unfold disassocOne at he
  rw [attempt_trace] at he
  rcases mem_bind_trace _ _ _ _ he with h | ⟨a, _, h⟩
  · rw [mem_opCall_trace _ _ _ _ h]
    rfl
  · rcases a with _ | id
    · simp [M.pure_apply] at h
    · dsimp at h
      rw [attempt_trace] at h
      rcases mem_bind_trace _ _ _ _ h with h2 | ⟨_, _, h2⟩
      · rw [mem_opCall_trace _ _ _ _ h2]
        rfl
      · rw [mem_opCall_trace _ _ _ _ h2]
        rfl

theorem deleteAliasLoop_no_invoke (c : Client σ) (id : String) :
    ∀ (as : List String) (s : σ), ∀ e ∈ (deleteAliasLoop c id as s).2.1,
      isInvokeEv e = false := by
  intro as
  induction as with
  | nil => intro s e he; simp [deleteAliasLoop, M.pure_apply] at he
  | cons al rest ih =>
      intro s e he
      rcases mem_bind_trace (attempt (opCall (.deleteAlias id al) (c.deleteAgentAlias id al)))
          (fun _ => deleteAliasLoop c id rest) s e he with h | ⟨_, _, h⟩
      · rw [attempt_trace] at h
        rw [mem_opCall_trace _ _ _ _ h]
        rfl
      · exact ih _ e h

theorem deleteOne_no_invoke (c : Client σ) (n : String) (s : σ) :
    ∀ e ∈ (deleteOne c n s).2.1, isInvokeEv e = false := by
  intro e he
  unfold deleteOne at he
  rw [attempt_trace] at he
  rcases mem_bind_trace _ _ _ _ he with h | ⟨a, _, h⟩
  · rw [mem_opCall_trace _ _ _ _ h]
    rfl
  · rcases a with _ | id
    · simp [M.pure_apply] at h
    · dsimp at h
      rcases mem_bind_trace _ _ _ _ h with h2 | ⟨as, _, h2⟩
      · rw [opListAliases_apply] at h2
        simp at h2
        rw [h2]
        rfl
      · rcases mem_bind_trace _ _ _ _ h2 with h3 | ⟨_, _, h3⟩
        · exact deleteAliasLoop_no_invoke c id as _ e h3
        · rw [attempt_trace] at h3
          rw [mem_opCall_trace _ _ _ _ h3]
          rfl

theorem guardrailLoop_no_invoke (c : Client σ) :
    ∀ (gs : List (String × String)) (s : σ), ∀ e ∈ (guardrailLoop c gs s).2.1,
      isInvokeEv e = false := by
  intro gs
  induction gs with
  | nil => intro s e he; simp [guardrailLoop, M.pure_apply] at he
  | cons g rest ih =>
      intro s e he
      rcases g with ⟨gname, gid⟩
      unfold guardrailLoop at he
      split_ifs at he
      · rcases mem_bind_trace (opCall (.deleteGuardrail gid) (c.deleteGuardrail gid))
            (fun _ => guardrailLoop c rest) s e he with h | ⟨_, _, h⟩
        · rw [mem_opCall_trace _ _ _ _ h]
          rfl
        · exact ih _ e h
      · exact ih _ e he

theorem guardrailStep_no_invoke (c : Client σ) (s : σ) :
    ∀ e ∈ (guardrailStep c s).2.1, isInvokeEv e = false := by
  intro e he
  unfold guardrailStep at he
  rw [attempt_trace] at he
  rcases mem_bind_trace _ _ _ _ he with h | ⟨gs, _, h⟩
  · rw [mem_opCall_trace _ _ _ _ h]
    rfl
  · exact guardrailLoop_no_invoke c gs _ e h

theorem phaseLoop_no_invoke (step : String → M σ Unit)
    (hstep : ∀ n s, ∀ e ∈ (step n s).2.1, isInvokeEv e = false) :
    ∀ (names : List String) (s : σ), ∀ e ∈ (phaseLoop step names s).2.1,
      isInvokeEv e = false := by
  intro names
  induction names with
  | nil => intro s e he; simp [phaseLoop, M.pure_apply] at he
  | cons n rest ih =>
      intro s e he
      rcases mem_bind_trace (step n) (fun _ => phaseLoop step rest) s e he with h | ⟨_, _, h⟩
      · exact hstep n s e h
      · exact ih _ e h

theorem cleanupAgents_no_invoke (c : Client σ) (names : List String) (s : σ) :
    ∀ e ∈ (cleanupAgents c names s).2.1, isInvokeEv e = false := by
  intro e he
  have hstep1 : ∀ n s2, ∀ e2 ∈ ((if isSupName n then disassocOne c n
      else pure () : M σ Unit) s2).2.1, isInvokeEv e2 = false := by
    intro n s2 e2 he2
    split_ifs at he2
    · exact disassocOne_no_invoke c n s2 e2 he2
    · simp [M.pure_apply] at he2
  have hstep2 : ∀ n s2, ∀ e2 ∈ ((if isSupName n then deleteOne c n
      else pure () : M σ Unit) s2).2.1, isInvokeEv e2 = false := by
    intro n s2 e2 he2
    split_ifs at he2
    · exact deleteOne_no_invoke c n s2 e2 he2
    · simp [M.pure_apply] at he2
  have hstep3 : ∀ n s2, ∀ e2 ∈ ((if isSupName n then pure ()
      else deleteOne c n : M σ Unit) s2).2.1, isInvokeEv e2 = false := by
    intro n s2 e2 he2
    split_ifs at he2
    · simp [M.pure_apply] at he2
    · exact deleteOne_no_invoke c n s2 e2 he2
  unfold cleanupAgents at he
  rcases mem_bind_trace _ _ _ _ he with h | ⟨_, _, h⟩
  · exact phaseLoop_no_invoke _ hstep1 names s e h
  · rcases mem_bind_trace _ _ _ _ h with h2 | ⟨_, _, h2⟩
    · exact phaseLoop_no_invoke _ hstep2 names _ e h2
    · rcases mem_bind_trace _ _ _ _ h2 with h3 | ⟨_, _, h3⟩
      · exact phaseLoop_no_invoke _ hstep3 names _ e h3
      · exact guardrailStep_no_invoke c _ e h3

theorem provisionPortfolio_no_invoke (c : Client σ) (region account : String) (s : σ) :
    ∀ e ∈ provTraceP c region account s, isInvokeEv e = false := by
  intro e he
  obtain ⟨nid, sid, aid, pid, narn, sarn, aarn, n, hchar⟩ :=
    provisionPortfolio_char c region account s
  rw [hchar] at he
  have he2 := List.mem_of_mem_take he
  simp only [fullTraceP, leafChain, supChainTail, List.mem_append, List.mem_cons,
    List.not_mem_nil, or_false] at he2
  rcases he2 with (h | h) | (h | h | h | h | h) | (h | h | h | h | h) |
    (h | h | h | h | h) | (h | h | h | h | h | h) <;> subst h <;> rfl
